import Mathlib

/-!
Shallow embedding of the MidiSynth voice-allocation engine
(src/MyNewPlugin/MidiSynth.h, src/MyNewPlugin/MidiSynth.cpp).

Conventions:
* C++ `double` fields are modelled as `ℚ`; audio rendering (sample buffers)
  is not modelled, since none of the scheduling state depends on it.
* The abstract `Voice` interface (pure-virtual `GetBusy`/`GetReleased`,
  virtual `Trigger`/`Release`/`Kill`) is external to the repository; its
  state machine is modelled from the spec (section 4.7).  All calls the
  engine makes to a voice are additionally recorded in a trace of
  `VAction`s so that theorems can count/locate Trigger and Release calls.
* `IMidiMsg` / `IMidiQueue` (IPlugMidi.h) are external collaborators and
  are modelled from the spec (sections 4.1 and 6).
* C++ `for` loops over voice indices become structural recursions over
  `List.range n`; the early `return` in `TriggerPolyNote` is modelled by a
  `Bool` completion flag.
* Machine integers (`int`, `int64_t`) are modelled as `Int`; the one
  narrowing conversion (`(uint16_t)` in `SetUnisonVoices` and the
  constructor) is modelled with an explicit `% 65536`.
-/

def MAX_VOICES : Nat := 32

/-- iplug `Clip(x, lo, hi)`: clamp `x` into `[lo, hi]`. -/
def Clip (x lo hi : Int) : Int := min (max x lo) hi

/-- MidiSynth::KeyPressInfo: a key number with its normalised velocity. -/
structure KeyPressInfo where
  mKey : Int
  mVelNorm : ℚ
  deriving DecidableEq, Repr

instance : Inhabited KeyPressInfo := ⟨⟨0, 0⟩⟩

/-- operator== on KeyPressInfo compares the key only (velocity is not part
of identity). -/
def KeyPressInfo.keyEq (a b : KeyPressInfo) : Bool := a.mKey == b.mKey

/-- enum EPolyMode. -/
inductive EPolyMode where
  | kPolyModePoly
  | kPolyModeLegato
  | kPolyModeMono
  deriving DecidableEq, Repr

/-- enum EATMode. -/
inductive EATMode where
  | kATModeChannel
  | kATModePoly
  deriving DecidableEq, Repr

/-- MidiSynth::Voice.  The engine-owned fields (`mStartTime` … `mStackIdx`)
are exactly the C++ data members.  Modelled from the spec (section 4.7):
the busy / release status owned by the concrete voice implementation is
represented by the two flags `busy` (voice is sounding or fading) and
`released` (amp envelopes are in their release stage). -/
structure Voice where
  mStartTime : Int := -1
  mLastBusy : Bool := false
  mKey : Int := -1
  mPrevKey : Int := -1
  mBasePitch : ℚ := 0
  mAftertouch : ℚ := 0
  mStackIdx : Int := -1
  busy : Bool := false
  released : Bool := false
  deriving DecidableEq, Repr

instance : Inhabited Voice := ⟨{}⟩

/-- Voice::GetBusy (pure virtual; modelled from the spec: reports whether
the voice is currently sounding, including the post-release fade). -/
def Voice.GetBusy (v : Voice) : Bool := v.busy

/-- Voice::GetReleased: "true if voice is free or amp envs are in release
stage" (doc comment in MidiSynth.h). -/
def Voice.GetReleased (v : Voice) : Bool := !v.busy || v.released

/-- Voice::Trigger.  Modelled from the spec (4.7): Free → Busy-Sounding on
Trigger; a re-trigger likewise leaves the voice sounding and not released. -/
def Voice.Trigger (v : Voice) : Voice := { v with busy := true, released := false }

/-- Voice::Release.  Modelled from the spec (4.7): Busy-Sounding →
Busy-Released; `busy` stays true while the fade-out is in progress. -/
def Voice.Release (v : Voice) : Voice := { v with released := true }

/-- Voice::Kill.  Modelled from the spec (4.7): any state → Free. -/
def Voice.Kill (v : Voice) (_soft : Bool) : Voice := { v with busy := false, released := false }

/-- Voice::RemovedFromKey (private, MidiSynth.h lines 116-121). -/
def Voice.RemovedFromKey (v : Voice) : Voice :=
  { v with mPrevKey := v.mKey, mKey := -1, mAftertouch := 0 }

/-- Calls the engine makes on voices, recorded as a trace. -/
inductive VAction where
  | trigger (v : Nat) (level : ℚ) (isRetrigger : Bool)
  | release (v : Nat)
  | kill (v : Nat) (soft : Bool)
  deriving DecidableEq, Repr

/-- Control-change indices the engine dispatches on. -/
inductive CCIdx where
  | kModWheel
  | kSustainOnOff
  | kAllNotesOff
  | ccOther
  deriving DecidableEq, Repr

/-- MIDI status bytes the engine dispatches on. -/
inductive MidiStatus where
  | kNoteOn
  | kNoteOff
  | kPolyAftertouch
  | kChannelAftertouch
  | kPitchWheel
  | kControlChange
  | statusOther
  deriving DecidableEq, Repr

/-- Modelled from the spec: IMidiMsg (IPlugMidi.h is not in the repository
sources).  Carries exactly the data the engine's accessors read: the
in-block sample offset, the status byte, and the note / velocity /
aftertouch / pitch-wheel / control-change payloads. -/
structure IMidiMsg where
  mOffset : Int := 0
  status : MidiStatus := .statusOther
  noteNumber : Int := 0
  velocity : Int := 0
  polyATVal : Int := 0
  channelATVal : Int := 0
  pitchWheelVal : ℚ := 0
  cc : CCIdx := .ccOther
  ccVal : ℚ := 0
  deriving DecidableEq, Repr

/-- Modelled from the spec (4.1): IMidiQueue::Add keeps the queue ordered
by in-block offset, stably (a new message goes after queued messages with
the same offset). -/
def queueAdd : List IMidiMsg → IMidiMsg → List IMidiMsg
  | [], m => [m]
  | x :: rest, m => if m.mOffset < x.mOffset then m :: x :: rest else x :: queueAdd rest m

/-- The engine state: the data members of class MidiSynth.
`mVS` (the WDL_PtrList of voices) is `voices`; `mReleasedVoicesPlayingKey`
is declared in the header but never used and is omitted.  `mSampleRate`
and the audio-only members are omitted (no claim mentions them). -/
structure MidiSynth where
  mNVoices : Nat := MAX_VOICES
  voices : List Voice := []
  mGranularity : Int := 16
  mPrevKey : Int := -1
  mSampleTime : Int := 0
  mPitchBend : ℚ := 0
  mModWheel : ℚ := 0
  mPrevVelNorm : ℚ := 0
  mPitchOffset : ℚ := 0
  mSustainPedalDown : Bool := false
  mVoicesAreActive : Bool := false
  mUnisonVoices : Nat := 1
  mVoiceStatus : List Bool := List.replicate MAX_VOICES false
  mPolyMode : EPolyMode := .kPolyModePoly
  mATMode : EATMode := .kATModeChannel
  mHeldKeys : List KeyPressInfo := []
  mSustainedNotes : List KeyPressInfo := []
  mMidiQueue : List IMidiMsg := []
  mVelocityLUT : Int → Int := fun i => i
  mAfterTouchLUT : Int → Int := fun i => i

/-- MidiSynth::MidiSynth(polyMode, blockSize, nUnisonVoices): the
constructor sets the granularity to the block size, casts the unison count
to uint16_t, and fills both lookup tables with the identity. -/
def mkMidiSynth (polyMode : EPolyMode) (blockSize : Int) (nUnisonVoices : Int) : MidiSynth :=
  { mPolyMode := polyMode
    mGranularity := blockSize
    mUnisonVoices := ((nUnisonVoices % 65536)).toNat }

/-- MidiSynth::NVoices. -/
def MidiSynth.NVoices (s : MidiSynth) : Nat := s.mNVoices

/-- MidiSynth::GetVoice via mVS.Get.  Out-of-range access (a caller bug in
C++, where it would yield a null pointer) is totalised with the default
voice. -/
def MidiSynth.GetVoice (s : MidiSynth) (v : Nat) : Voice := s.voices.getD v default

/-- Writing back through the Voice pointer obtained from GetVoice. -/
def MidiSynth.setVoice (s : MidiSynth) (v : Nat) (vo : Voice) : MidiSynth :=
  { s with voices := s.voices.set v vo }

/-- MidiSynth::GetAdjustedPitch. -/
def MidiSynth.GetAdjustedPitch (s : MidiSynth) (key : Int) : ℚ := key + s.mPitchOffset

/-- MidiSynth::AddVoice. -/
def MidiSynth.AddVoice (s : MidiSynth) (v : Voice) : MidiSynth :=
  { s with voices := s.voices ++ [v] }

/-- MidiSynth::SetVoicesActive. -/
def MidiSynth.SetVoicesActive (s : MidiSynth) (active : Bool) : MidiSynth :=
  { s with mVoicesAreActive := active }

/-- MidiSynth::SetGranularity. -/
def MidiSynth.SetGranularity (s : MidiSynth) (granularity : Int) : MidiSynth :=
  { s with mGranularity := granularity }

/-- MidiSynth::SetPolyMode. -/
def MidiSynth.SetPolyMode (s : MidiSynth) (mode : EPolyMode) : MidiSynth :=
  { s with mPolyMode := mode }

/-- MidiSynth::SetUnisonVoices: `mUnisonVoices = (uint16_t) Clip(nVoices, 1, NVoices())`. -/
def MidiSynth.SetUnisonVoices (s : MidiSynth) (nVoices : Int) : MidiSynth :=
  { s with mUnisonVoices := ((Clip nVoices 1 (s.mNVoices : Int)) % 65536).toNat }

/-- The `for` loop of MidiSynth::KillAllVoices, over a list of voice
indices: kill each voice and clear its key binding. -/
def killAllLoop (soft : Bool) : List Nat → MidiSynth → List VAction → MidiSynth × List VAction
  | [], s, acts => (s, acts)
  | v :: rest, s, acts =>
    killAllLoop soft rest (s.setVoice v (((s.GetVoice v).Kill soft).RemovedFromKey))
      (acts ++ [.kill v soft])

/-- MidiSynth::KillAllVoices. -/
def MidiSynth.KillAllVoices (s : MidiSynth) (soft : Bool) : MidiSynth × List VAction :=
  killAllLoop soft (List.range s.NVoices) s []

/-- MidiSynth::SetNVoices.  The C++ function asserts
`n > 0 && n <= MAX_VOICES`; the model performs the release-build effect
unconditionally, and theorems carry the asserted precondition. -/
def MidiSynth.SetNVoices (s : MidiSynth) (n : Int) : MidiSynth :=
  { (s.KillAllVoices false).1 with mNVoices := n.toNat }

/-- MidiSynth::AllNotesOff. -/
def MidiSynth.AllNotesOff (s : MidiSynth) : MidiSynth × List VAction :=
  s.KillAllVoices true

/-- MidiSynth::StopVoice: release the voice and clear its key binding. -/
def MidiSynth.StopVoice (s : MidiSynth) (v : Nat) : MidiSynth × List VAction :=
  (s.setVoice v ((s.GetVoice v).Release.RemovedFromKey), [.release v])

/-- The `for` loop of MidiSynth::StopVoicesForKey over a list of voice
indices: stop every busy voice whose key equals `note`. -/
def stopVoicesLoop (note : Int) : List Nat → MidiSynth → List VAction → MidiSynth × List VAction
  | [], s, acts => (s, acts)
  | v :: rest, s, acts =>
    if (s.GetVoice v).mKey = note then
      if (s.GetVoice v).GetBusy then
        stopVoicesLoop note rest (s.setVoice v ((s.GetVoice v).Release.RemovedFromKey))
          (acts ++ [.release v])
      else stopVoicesLoop note rest s acts
    else stopVoicesLoop note rest s acts

/-- MidiSynth::StopVoicesForKey. -/
def MidiSynth.StopVoicesForKey (s : MidiSynth) (note : Int) : MidiSynth × List VAction :=
  stopVoicesLoop note (List.range s.NVoices) s []

/-- MidiSynth::VoicesAreBusy: whether any voice in the pool reports busy. -/
def MidiSynth.VoicesAreBusy (s : MidiSynth) : Bool :=
  (List.range s.NVoices).any fun v => (s.GetVoice v).GetBusy

/-- The first `for` loop of MidiSynth::FindFreeVoice: return the first
index whose voice is not busy. -/
def firstFreeLoop (s : MidiSynth) : List Nat → Option Nat
  | [] => none
  | v :: rest => if !(s.GetVoice v).GetBusy then some v else firstFreeLoop s rest

/-- The second `for` loop of MidiSynth::FindFreeVoice: running
(mostRecentTime, longestPlayingVoice) record scan. -/
def stealLoop (starts : Nat → Int) : List Nat → Int × Int → Int × Int
  | [], acc => acc
  | v :: rest, (mr, lp) =>
    if starts v < mr then stealLoop starts rest (starts v, (v : Int))
    else stealLoop starts rest (mr, lp)

/-- MidiSynth::FindFreeVoice (MidiSynth.h lines 368-389): first non-busy
voice, else the steal scan seeded with `mostRecentTime = mSampleTime` and
`longestPlayingVoice = -1`. -/
def MidiSynth.FindFreeVoice (s : MidiSynth) : Int :=
  match firstFreeLoop s (List.range s.NVoices) with
  | some v => (v : Int)
  | none =>
    (stealLoop (fun v => (s.GetVoice v).mStartTime) (List.range s.NVoices) (s.mSampleTime, -1)).2

/-- quantisation performed by MidiSynth::AddMidiMsgToQueue:
`if (mGranularity > 1) offset = (offset / granularity) * granularity`,
with C++ `int` division (truncation toward zero, `Int.tdiv`). -/
def quantizeOffset (granularity off : Int) : Int :=
  if 1 < granularity then (off.tdiv granularity) * granularity else off

/-- MidiSynth::AddMidiMsgToQueue. -/
def MidiSynth.AddMidiMsgToQueue (s : MidiSynth) (msg : IMidiMsg) : MidiSynth :=
  { s with mMidiQueue := queueAdd s.mMidiQueue { msg with mOffset := quantizeOffset s.mGranularity msg.mOffset } }

/-- The `erase` idiom used for note-off in NoteOnOffPoly / NoteOnOffMono:
scan for the first entry whose key equals `note` and erase it (a no-op
when no entry matches). -/
def eraseFirstKey : List KeyPressInfo → Int → List KeyPressInfo
  | [], _ => []
  | k :: rest, note => if k.mKey = note then rest else k :: eraseFirstKey rest note

/-- `std::find` over a KeyPressInfo list (operator== compares keys). -/
def containsKey (l : List KeyPressInfo) (key : Int) : Bool :=
  l.any fun k => k.mKey == key

/-- The unison `for` loop of MidiSynth::TriggerPolyNote.  `uv` is the
current unison slot; `remaining` counts the slots still to fill.  The
returned `Bool` is false when the loop hit the early `return` on a failed
allocation (`FindFreeVoice() == -1`), in which case the caller's trailing
statements are skipped. -/
def triggerUnisonLoop (kp : KeyPressInfo) :
    Nat → Nat → MidiSynth → List VAction → MidiSynth × List VAction × Bool
  | _, 0, s, acts => (s, acts, true)
  | uv, r + 1, s, acts =>
    let v := s.FindFreeVoice
    if v = -1 then (s, acts, false)
    else
      let pV := s.GetVoice v.toNat
      let pV1 : Voice :=
        { pV with
          mStartTime := s.mSampleTime
          mKey := kp.mKey
          mStackIdx := (uv : Int)
          mBasePitch := s.GetAdjustedPitch kp.mKey
          mAftertouch := 0 }
      triggerUnisonLoop kp (uv + 1) r (s.setVoice v.toNat pV1.Trigger)
        (acts ++ [.trigger v.toNat kp.mVelNorm pV1.GetBusy])

/-- MidiSynth::TriggerPolyNote (MidiSynth.cpp lines 327-359). -/
def MidiSynth.TriggerPolyNote (s : MidiSynth) (keyPress : KeyPressInfo) : MidiSynth × List VAction :=
  let s1 := if containsKey s.mHeldKeys keyPress.mKey then s
            else { s with mHeldKeys := s.mHeldKeys ++ [keyPress] }
  let s2 := if containsKey s1.mSustainedNotes keyPress.mKey then s1
            else { s1 with mSustainedNotes := s1.mSustainedNotes ++ [keyPress] }
  let r := triggerUnisonLoop keyPress 0 s2.mUnisonVoices s2 []
  if r.2.2 then ({ r.1 with mVoicesAreActive := true, mPrevKey := keyPress.mKey }, r.2.1)
  else (r.1, r.2.1)

/-- The unison `for` loop of MidiSynth::TriggerMonoNote over voice
indices: assign key / stack index / pitch / zeroed aftertouch to every
voice, then trigger it fresh if it is free, re-trigger it if the mode is
strict Mono or the voice is released, and otherwise leave it sounding. -/
def triggerMonoLoop (note : KeyPressInfo) : List Nat → MidiSynth → List VAction → MidiSynth × List VAction
  | [], s, acts => (s, acts)
  | v :: rest, s, acts =>
    let pV := s.GetVoice v
    let pV1 : Voice :=
      { pV with
        mKey := note.mKey
        mStackIdx := (v : Int)
        mBasePitch := s.GetAdjustedPitch note.mKey
        mAftertouch := 0 }
    let voiceFree := !pV1.GetBusy
    let voiceReleased := pV1.GetReleased
    if voiceFree then
      triggerMonoLoop note rest (s.setVoice v pV1.Trigger) (acts ++ [.trigger v note.mVelNorm false])
    else if s.mPolyMode = .kPolyModeMono || voiceReleased then
      triggerMonoLoop note rest (s.setVoice v pV1.Trigger) (acts ++ [.trigger v note.mVelNorm true])
    else
      triggerMonoLoop note rest (s.setVoice v pV1) acts

/-- MidiSynth::TriggerMonoNote (MidiSynth.cpp lines 361-386). -/
def MidiSynth.TriggerMonoNote (s : MidiSynth) (note : KeyPressInfo) : MidiSynth × List VAction :=
  let r := triggerMonoLoop note (List.range s.mUnisonVoices) s []
  ({ r.1 with mVoicesAreActive := true }, r.2)

/-- MidiSynth::NoteOnOffPoly (MidiSynth.cpp lines 200-252). -/
def MidiSynth.NoteOnOffPoly (s : MidiSynth) (msg : IMidiMsg) : MidiSynth × List VAction :=
  if msg.status = .kNoteOn ∧ msg.velocity ≠ 0 then
    let velNorm : ℚ := ((Clip (s.mVelocityLUT msg.velocity) 1 127 : Int) : ℚ) / 127
    s.TriggerPolyNote ⟨msg.noteNumber, velNorm⟩
  else
    let s1 := { s with mHeldKeys := eraseFirstKey s.mHeldKeys msg.noteNumber }
    if !s1.mSustainPedalDown then
      let s2 := { s1 with mSustainedNotes := eraseFirstKey s1.mSustainedNotes msg.noteNumber }
      s2.StopVoicesForKey msg.noteNumber
    else (s1, [])

/-- MidiSynth::NoteOnOffMono (MidiSynth.cpp lines 254-325).  The
`mSustainedNotes.back()` read in the pedal-down / no-held-keys branch is
out of bounds in C++ when `mSustainedNotes` is empty; the model totalises
it with the default KeyPressInfo (see the C10 theorems). -/
def MidiSynth.NoteOnOffMono (s : MidiSynth) (msg : IMidiMsg) : MidiSynth × List VAction :=
  if msg.status = .kNoteOn ∧ msg.velocity ≠ 0 then
    let velocity := Clip (s.mVelocityLUT msg.velocity) 1 127
    let velNorm : ℚ := ((velocity : Int) : ℚ) / 127
    let theNote : KeyPressInfo := ⟨msg.noteNumber, velNorm⟩
    let s1 := if containsKey s.mHeldKeys msg.noteNumber then s
              else { s with mHeldKeys := s.mHeldKeys ++ [theNote] }
    let s2 := { s1 with mSustainedNotes := [theNote] }
    let r := s2.TriggerMonoNote theNote
    ({ r.1 with mPrevVelNorm := velNorm }, r.2)
  else
    let s1 := { s with mHeldKeys := eraseFirstKey s.mHeldKeys msg.noteNumber }
    if s1.mHeldKeys ≠ [] then
      let queuedNote := s1.mHeldKeys.getLastD default
      if queuedNote.mKey ≠ (s1.GetVoice 0).mKey then
        let s2 := { s1 with mSustainedNotes := [queuedNote] }
        s2.TriggerMonoNote queuedNote
      else (s1, [])
    else
      if s1.mSustainPedalDown then
        let queuedNote := s1.mSustainedNotes.getLastD default
        if queuedNote.mKey ≠ (s1.GetVoice 0).mKey then s1.TriggerMonoNote queuedNote
        else (s1, [])
      else s1.StopVoicesForKey msg.noteNumber

/-- The iterator loop run when the sustain pedal is released (ProcessBlock,
kSustainOnOff case): walk the sustained notes; every entry whose key is no
longer physically held has its voices stopped and is erased, the others
are kept. -/
def sustainReleaseLoop :
    List KeyPressInfo → MidiSynth → List KeyPressInfo → List VAction →
      MidiSynth × List KeyPressInfo × List VAction
  | [], s, kept, acts => (s, kept, acts)
  | kp :: rest, s, kept, acts =>
    let held := containsKey s.mHeldKeys kp.mKey
    if !held then
      let r := s.StopVoicesForKey kp.mKey
      sustainReleaseLoop rest r.1 kept (acts ++ r.2)
    else
      sustainReleaseLoop rest s (kept ++ [kp]) acts

/-- The 0.5 threshold of the sustain-pedal comparison, written in reduced
numerator/denominator form (it equals `1/2 : ℚ`, see `ratHalf_eq`) so that
concrete states evaluate by kernel reduction. -/
def ratHalf : ℚ := ⟨1, 2, by norm_num, by norm_num⟩

lemma ratHalf_eq : ratHalf = 1 / 2 := by
  rw [ratHalf]; norm_num [Rat.mk'_eq_divInt, Rat.divInt_eq_div]

/-- The kSustainOnOff case of ProcessBlock's control-change dispatch
(MidiSynth.cpp lines 114-140): `mSustainPedalDown = (value >= 0.5)`, then
on release the sustained-note scan. -/
def MidiSynth.handleSustainCC (s : MidiSynth) (ccVal : ℚ) : MidiSynth × List VAction :=
  let s1 := { s with mSustainPedalDown := decide (ratHalf ≤ ccVal) }
  if !s1.mSustainPedalDown then
    if s1.mSustainedNotes ≠ [] then
      let r := sustainReleaseLoop s1.mSustainedNotes s1 [] []
      ({ r.1 with mSustainedNotes := r.2.1 }, r.2.2)
    else (s1, [])
  else (s1, [])

/-- The kPolyAftertouch case of ProcessBlock: for every voice on the
message's key, update its aftertouch when the mode is per-key. -/
def polyATLoop (keyN atRaw : Int) : List Nat → MidiSynth → MidiSynth
  | [], s => s
  | v :: rest, s =>
    if s.mATMode = .kATModePoly ∧ (s.GetVoice v).mKey = keyN then
      polyATLoop keyN atRaw rest
        (s.setVoice v { s.GetVoice v with mAftertouch := ((s.mAfterTouchLUT atRaw : Int) : ℚ) / 127 })
    else polyATLoop keyN atRaw rest s

/-- The kChannelAftertouch case of ProcessBlock: set every voice's
aftertouch to the normalised value when the mode is channel-wide. -/
def channelATLoop (val : ℚ) : List Nat → MidiSynth → MidiSynth
  | [], s => s
  | v :: rest, s => channelATLoop val rest (s.setVoice v { s.GetVoice v with mAftertouch := val })

/-- The event-dispatch `switch` of MidiSynth::ProcessBlock (MidiSynth.cpp
lines 63-152), as a function of one message. -/
def MidiSynth.handleMsg (s : MidiSynth) (msg : IMidiMsg) : MidiSynth × List VAction :=
  match msg.status with
  | .kNoteOn | .kNoteOff =>
    if s.mPolyMode = .kPolyModePoly then s.NoteOnOffPoly msg else s.NoteOnOffMono msg
  | .kPolyAftertouch => (polyATLoop msg.noteNumber msg.polyATVal (List.range s.NVoices) s, [])
  | .kChannelAftertouch =>
    if s.mATMode = .kATModeChannel then
      (channelATLoop (((s.mAfterTouchLUT msg.channelATVal : Int) : ℚ) / 127) (List.range s.NVoices) s, [])
    else (s, [])
  | .kPitchWheel => ({ s with mPitchBend := msg.pitchWheelVal }, [])
  | .kControlChange =>
    match msg.cc with
    | .kModWheel => ({ s with mModWheel := msg.ccVal }, [])
    | .kSustainOnOff => s.handleSustainCC msg.ccVal
    | .kAllNotesOff =>
      MidiSynth.AllNotesOff
        { s with mHeldKeys := [], mSustainedNotes := [], mSustainPedalDown := false }
    | .ccOther => (s, [])
  | .statusOther => (s, [])

/-- The inner `while (!mMidiQueue.Empty())` drain of ProcessBlock: handle
every queued message whose offset is ≤ the current sub-block start,
stopping at the first later one. -/
def drainQueue (sIdx : Int) : List IMidiMsg → MidiSynth → List VAction →
    MidiSynth × List IMidiMsg × List VAction
  | [], s, acts => (s, [], acts)
  | msg :: rest, s, acts =>
    if msg.mOffset > sIdx then (s, msg :: rest, acts)
    else
      let r := s.handleMsg msg
      drainQueue sIdx rest r.1 (acts ++ r.2)

/-- The outer `while (samplesRemaining > 0)` slicing loop of ProcessBlock.
Structural recursion on a fuel of `nFrames.toNat` steps; since each
iteration consumes at least one sample whenever the granularity is
positive, the fuel is never exhausted then (with granularity ≤ 0 the C++
loop would not terminate at all; the model stops instead).  Audio
rendering (ProcessSlice / ProcessSamples) touches no scheduling state and
is not modelled. -/
def processLoop (nFrames : Int) : Nat → Int → Int → MidiSynth → List VAction → MidiSynth × List VAction
  | 0, _, _, s, acts => (s, acts)
  | fuel + 1, bs, samplesRemaining, s, acts =>
    if samplesRemaining ≤ 0 then (s, acts)
    else
      let bs1 := if samplesRemaining < bs then samplesRemaining else bs
      if bs1 ≤ 0 then (s, acts)
      else
        let sIdx := nFrames - samplesRemaining
        let r := drainQueue sIdx s.mMidiQueue s acts
        let s2 := { r.1 with mMidiQueue := r.2.1 }
        processLoop nFrames fuel bs1 (samplesRemaining - bs1)
          { s2 with mSampleTime := s2.mSampleTime + bs1 } r.2.2

/-- MidiSynth::ProcessBlock (MidiSynth.cpp lines 32-196), minus the audio
buffers: returns the new state, the `bool` result (true = silent block),
and the trace of voice calls.  The final bookkeeping recomputes the busy
bitmap and the voices-active flag, and the queue flush (modelled from the
spec, 4.1: advance internal offsets by one block) rebases the offsets of
any messages left in the queue. -/
def MidiSynth.ProcessBlock (s : MidiSynth) (nFrames : Int) : MidiSynth × Bool × List VAction :=
  if s.mVoicesAreActive || !s.mMidiQueue.isEmpty then
    let r := processLoop nFrames nFrames.toNat s.mGranularity nFrames s []
    let s1 := r.1
    let voicesbusy := (List.range s1.NVoices).any fun v => (s1.GetVoice v).GetBusy
    let status1 := (List.range MAX_VOICES).map fun v =>
      if v < s1.NVoices then (s1.GetVoice v).GetBusy else s1.mVoiceStatus.getD v false
    let s2 := { s1 with
      mVoicesAreActive := voicesbusy
      mVoiceStatus := status1
      mMidiQueue := s1.mMidiQueue.map fun m => { m with mOffset := m.mOffset - nFrames } }
    (s2, false, r.2)
  else (s, true, [])

/-- Number of Trigger calls in a trace. -/
def countTriggers (acts : List VAction) : Nat :=
  acts.countP fun a => match a with | .trigger _ _ _ => true | _ => false

/-- A voice index the allocator can still serve: either its voice is not
busy (the free scan finds it), or its start time is strictly before the
current sample time (the steal scan can pick it). -/
def allocatableP (s : MidiSynth) (v : Nat) : Bool :=
  !(s.GetVoice v).GetBusy || decide ((s.GetVoice v).mStartTime < s.mSampleTime)

/-- How many voices of the pool the allocator can still serve. -/
def MidiSynth.allocatable (s : MidiSynth) : Nat :=
  (List.range s.mNVoices).countP (allocatableP s)

/-! ### Basic voice-pool lemmas -/

lemma setVoice_voices_length (s : MidiSynth) (v : Nat) (vo : Voice) :
    (s.setVoice v vo).voices.length = s.voices.length := by
  simp [MidiSynth.setVoice]

lemma GetVoice_setVoice_self (s : MidiSynth) (v : Nat) (vo : Voice) (h : v < s.voices.length) :
    (s.setVoice v vo).GetVoice v = vo := by
  simp [MidiSynth.setVoice, MidiSynth.GetVoice, List.getD_eq_getElem?_getD,
    List.getElem?_set_self', h]

lemma GetVoice_setVoice_ne (s : MidiSynth) (u v : Nat) (vo : Voice) (h : u ≠ v) :
    (s.setVoice v vo).GetVoice u = s.GetVoice u := by
  simp [MidiSynth.setVoice, MidiSynth.GetVoice, List.getD_eq_getElem?_getD,
    List.getElem?_set_ne (Ne.symm h)]

/-! ### The voice-index loops only touch `voices` -/

lemma stopVoicesLoop_state (note : Int) :
    ∀ (l : List Nat) (s : MidiSynth) (acts : List VAction),
      (stopVoicesLoop note l s acts).1 = { s with voices := (stopVoicesLoop note l s acts).1.voices } := by
  intro l
  induction l with
  | nil => intro s acts; rfl
  | cons v rest ih =>
    intro s acts
    simp only [stopVoicesLoop]
    split
    · split
      · exact ih _ _
      · exact ih _ _
    · exact ih _ _

lemma stopVoicesLoop_length (note : Int) :
    ∀ (l : List Nat) (s : MidiSynth) (acts : List VAction),
      (stopVoicesLoop note l s acts).1.voices.length = s.voices.length := by
  intro l
  induction l with
  | nil => intro s acts; rfl
  | cons v rest ih =>
    intro s acts
    simp only [stopVoicesLoop]
    split
    · split
      · rw [ih]; exact setVoice_voices_length ..
      · exact ih _ _
    · exact ih _ _

lemma killAllLoop_state (soft : Bool) :
    ∀ (l : List Nat) (s : MidiSynth) (acts : List VAction),
      (killAllLoop soft l s acts).1 = { s with voices := (killAllLoop soft l s acts).1.voices } := by
  intro l
  induction l with
  | nil => intro s acts; rfl
  | cons v rest ih => intro s acts; simp only [killAllLoop]; exact ih _ _

lemma triggerMonoLoop_state (note : KeyPressInfo) :
    ∀ (l : List Nat) (s : MidiSynth) (acts : List VAction),
      (triggerMonoLoop note l s acts).1 = { s with voices := (triggerMonoLoop note l s acts).1.voices } := by
  intro l
  induction l with
  | nil => intro s acts; rfl
  | cons v rest ih =>
    intro s acts
    simp only [triggerMonoLoop]
    split
    · exact ih _ _
    · split
      · exact ih _ _
      · exact ih _ _

lemma triggerUnisonLoop_state (kp : KeyPressInfo) :
    ∀ (r uv : Nat) (s : MidiSynth) (acts : List VAction),
      (triggerUnisonLoop kp uv r s acts).1 = { s with voices := (triggerUnisonLoop kp uv r s acts).1.voices } := by
  intro r
  induction r with
  | zero => intro uv s acts; rfl
  | succ n ih =>
    intro uv s acts
    simp only [triggerUnisonLoop]
    split
    · rfl
    · exact ih _ _ _

/-! ### C9: offset quantisation -/

/-- C9: for every non-negative event offset and every granularity, the
quantisation applied by AddMidiMsgToQueue is idempotent, never increases
the offset, yields a multiple of the granularity whenever the granularity
exceeds 1, and is exactly what AddMidiMsgToQueue applies to the enqueued
message. -/
theorem quantize_properties (g off : Int) (hoff : 0 ≤ off) (s : MidiSynth) (msg : IMidiMsg) :
    quantizeOffset g (quantizeOffset g off) = quantizeOffset g off ∧
    quantizeOffset g off ≤ off ∧
    (1 < g → g ∣ quantizeOffset g off) ∧
    (s.AddMidiMsgToQueue msg).mMidiQueue =
      queueAdd s.mMidiQueue { msg with mOffset := quantizeOffset s.mGranularity msg.mOffset } := by
  refine ⟨?_, ?_, ?_, rfl⟩
  · by_cases hg : 1 < g
    · simp only [quantizeOffset, if_pos hg]
      rw [Int.mul_tdiv_cancel _ (by omega)]
    · simp [quantizeOffset, hg]
  · by_cases hg : 1 < g
    · simp only [quantizeOffset, if_pos hg]
      rw [Int.tdiv_eq_ediv hoff (by omega)]
      exact Int.ediv_mul_le off (by omega)
    · simp [quantizeOffset, hg]
  · intro hg
    simp only [quantizeOffset, if_pos hg]
    exact dvd_mul_left g (off.tdiv g)

/-- C9 witness: the quantisation properties at granularity 16 and offset 23. -/
theorem quantize_properties_witness :
    (0 : Int) ≤ 23 ∧
    (quantizeOffset 16 (quantizeOffset 16 23) = quantizeOffset 16 23 ∧
     quantizeOffset 16 23 ≤ 23 ∧
     ((1 : Int) < 16 → (16 : Int) ∣ quantizeOffset 16 23) ∧
     ((mkMidiSynth .kPolyModePoly 16 1).AddMidiMsgToQueue { mOffset := 23 }).mMidiQueue =
       queueAdd (mkMidiSynth .kPolyModePoly 16 1).mMidiQueue
         { ({ mOffset := 23 } : IMidiMsg) with
            mOffset := quantizeOffset (mkMidiSynth .kPolyModePoly 16 1).mGranularity 23 }) :=
  ⟨by decide, quantize_properties 16 23 (by decide) (mkMidiSynth .kPolyModePoly 16 1) { mOffset := 23 }⟩

/-! ### C3: configuration bounds -/

/-- A configuration call on the engine's pool-size / unison surface. -/
inductive ConfigOp where
  | setUnisonVoices (n : Int)
  | setNVoices (n : Int)
  deriving DecidableEq, Repr

/-- Apply one configuration call. -/
def applyConfigOp (s : MidiSynth) : ConfigOp → MidiSynth
  | .setUnisonVoices n => s.SetUnisonVoices n
  | .setNVoices n => s.SetNVoices n

/-- The asserted precondition of each configuration call (SetNVoices
asserts `n > 0 && n <= MAX_VOICES`; SetUnisonVoices asserts nothing). -/
def validConfigOp : ConfigOp → Prop
  | .setUnisonVoices _ => True
  | .setNVoices n => 0 < n ∧ n ≤ (MAX_VOICES : Int)

lemma SetUnisonVoices_le (t : MidiSynth) (n : Int) :
    (t.SetUnisonVoices n).mUnisonVoices ≤ t.mNVoices := by
  simp only [MidiSynth.SetUnisonVoices, Clip]
  have h1 : (1 : Int) ≤ max n 1 := le_max_right n 1
  have h2 : min (max n 1) (t.mNVoices : Int) ≤ (t.mNVoices : Int) := min_le_right _ _
  have h3 : 0 ≤ min (max n 1) (t.mNVoices : Int) :=
    le_min (by omega) (by exact_mod_cast Nat.zero_le _)
  omega

lemma SetNVoices_mUnisonVoices (s : MidiSynth) (n : Int) :
    (s.SetNVoices n).mUnisonVoices = s.mUnisonVoices := by
  simp only [MidiSynth.SetNVoices, MidiSynth.KillAllVoices]
  rw [killAllLoop_state]

/-- C3 (amended): starting from any state whose pool size and unison count
are both at most MAX_VOICES, every sequence of SetUnisonVoices /
SetNVoices calls meeting SetNVoices' asserted precondition keeps both
counts at most MAX_VOICES, and immediately after any SetUnisonVoices call
the unison count is at most the pool size.  (The original claim — that the
unison count never exceeds the pool size after every sequence — fails:
SetNVoices does not re-clip the unison count; see the counterexample.) -/
theorem config_bounds_invariant (s : MidiSynth)
    (hN : s.mNVoices ≤ MAX_VOICES) (hU : s.mUnisonVoices ≤ MAX_VOICES)
    (ops : List ConfigOp) (hops : ∀ op ∈ ops, validConfigOp op) :
    ((ops.foldl applyConfigOp s).mNVoices ≤ MAX_VOICES ∧
     (ops.foldl applyConfigOp s).mUnisonVoices ≤ MAX_VOICES) ∧
    ∀ (t : MidiSynth) (n : Int), (t.SetUnisonVoices n).mUnisonVoices ≤ t.mNVoices := by
  refine ⟨?_, fun t n => SetUnisonVoices_le t n⟩
  induction ops generalizing s with
  | nil => exact ⟨hN, hU⟩
  | cons op rest ih =>
    have hop := hops op (by simp)
    have hrest : ∀ op ∈ rest, validConfigOp op := fun o ho => hops o (by simp [ho])
    rw [List.foldl_cons]
    cases op with
    | setUnisonVoices n =>
      refine ih _ ?_ ?_ hrest
      · simpa [applyConfigOp, MidiSynth.SetUnisonVoices] using hN
      · calc (applyConfigOp s (.setUnisonVoices n)).mUnisonVoices
            ≤ s.mNVoices := SetUnisonVoices_le s n
          _ ≤ MAX_VOICES := hN
    | setNVoices n =>
      refine ih _ ?_ ?_ hrest
      · simp only [applyConfigOp, MidiSynth.SetNVoices]
        have : n ≤ (MAX_VOICES : Int) := hop.2
        omega
      · rw [show applyConfigOp s (.setNVoices n) = s.SetNVoices n from rfl,
          SetNVoices_mUnisonVoices]
        exact hU

/-- C3 counterexample: SetNVoices(2); SetUnisonVoices(2); SetNVoices(1) —
each SetNVoices call meets its assertion, yet afterwards the unison count
(2) exceeds the pool size (1), refuting the claimed invariant. -/
def c3State : MidiSynth :=
  (((mkMidiSynth .kPolyModePoly 16 1).SetNVoices 2).SetUnisonVoices 2).SetNVoices 1

/-- C3 counterexample theorem: the claimed invariant "unison count never
exceeds the pool size after every sequence of configuration operations"
fails at the concrete sequence building `c3State`. -/
theorem config_bounds_counterexample :
    validConfigOp (.setNVoices 2) ∧ validConfigOp (.setNVoices 1) ∧
    c3State.mUnisonVoices = 2 ∧ c3State.mNVoices = 1 ∧
    ¬ c3State.mUnisonVoices ≤ c3State.mNVoices := by
  refine ⟨⟨by decide, by decide⟩, ⟨by decide, by decide⟩, by decide, by decide, by decide⟩

/-- C3 witness: the amended invariant applied to the default synth and the
counterexample's operation sequence. -/
theorem config_bounds_witness :
    ((mkMidiSynth .kPolyModePoly 16 1).mNVoices ≤ MAX_VOICES ∧
     (mkMidiSynth .kPolyModePoly 16 1).mUnisonVoices ≤ MAX_VOICES) ∧
    ((([ConfigOp.setNVoices 2, ConfigOp.setUnisonVoices 2, ConfigOp.setNVoices 1].foldl
        applyConfigOp (mkMidiSynth .kPolyModePoly 16 1)).mNVoices ≤ MAX_VOICES ∧
      ([ConfigOp.setNVoices 2, ConfigOp.setUnisonVoices 2, ConfigOp.setNVoices 1].foldl
        applyConfigOp (mkMidiSynth .kPolyModePoly 16 1)).mUnisonVoices ≤ MAX_VOICES) ∧
     ∀ (t : MidiSynth) (n : Int), (t.SetUnisonVoices n).mUnisonVoices ≤ t.mNVoices) :=
  ⟨⟨by decide, by decide⟩,
    config_bounds_invariant (mkMidiSynth .kPolyModePoly 16 1) (by decide) (by decide)
      [ConfigOp.setNVoices 2, ConfigOp.setUnisonVoices 2, ConfigOp.setNVoices 1]
      (by intro op hop; fin_cases hop <;> simp [validConfigOp] <;> decide)⟩

/-! ### C4: silent-block reporting -/

lemma ProcessBlock_active (s : MidiSynth) (nFrames : Int)
    (hc : (s.mVoicesAreActive || !s.mMidiQueue.isEmpty) = true) :
    (s.ProcessBlock nFrames).2.1 = false := by
  simp only [MidiSynth.ProcessBlock]
  rw [if_pos hc]

lemma ProcessBlock_idle (s : MidiSynth) (nFrames : Int)
    (hc : (s.mVoicesAreActive || !s.mMidiQueue.isEmpty) = false) :
    s.ProcessBlock nFrames = (s, true, []) := by
  simp only [MidiSynth.ProcessBlock]
  rw [if_neg (by simp [hc])]

/-- C4 (amended): ProcessBlock reports a silent block (returns true) iff
the voices-active flag is down and the event queue is empty; whenever the
flag agrees with the actual busy status of the pool — which holds in
normal operation, where the flag is recomputed from the pool at the end of
every processed block, but can be broken by SetVoicesActive — this is
exactly: no voice busy and no queued event means all work is skipped and
the block is reported silent, and otherwise the block is processed and
reported non-silent. -/
theorem processBlock_silent_iff (s : MidiSynth) (nFrames : Int)
    (h : s.mVoicesAreActive = s.VoicesAreBusy) :
    ((s.ProcessBlock nFrames).2.1 = true ↔ (s.VoicesAreBusy = false ∧ s.mMidiQueue = [])) ∧
    ((s.ProcessBlock nFrames).2.1 = true →
      (s.ProcessBlock nFrames).1 = s ∧ (s.ProcessBlock nFrames).2.2 = []) := by
  by_cases ha : s.mVoicesAreActive = true
  · have hr := ProcessBlock_active s nFrames (by simp [ha])
    rw [hr]
    constructor
    · simp only [Bool.false_eq_true, false_iff]
      intro hcon
      rw [h, hcon.1] at ha
      exact absurd ha (by simp)
    · intro hcon; exact absurd hcon (by simp)
  · have ha' : s.mVoicesAreActive = false := by simpa using ha
    by_cases hq : s.mMidiQueue.isEmpty = true
    · have hr := ProcessBlock_idle s nFrames (by simp [ha', hq])
      rw [hr]
      exact ⟨⟨fun _ => ⟨by rw [← h]; exact ha', List.isEmpty_iff.mp hq⟩, fun _ => rfl⟩,
        fun _ => ⟨rfl, rfl⟩⟩
    · have hq' : s.mMidiQueue.isEmpty = false := by simpa using hq
      have hr := ProcessBlock_active s nFrames (by simp [hq'])
      rw [hr]
      constructor
      · simp only [Bool.false_eq_true, false_iff]
        intro hcon
        rw [hcon.2] at hq'
        simp at hq'
      · intro hcon; exact absurd hcon (by simp)

/-- C4 counterexample state: one idle voice, empty queue, but the
voices-active flag forced up through the public SetVoicesActive API. -/
def c4State : MidiSynth :=
  (((mkMidiSynth .kPolyModePoly 16 1).AddVoice {}).SetNVoices 1).SetVoicesActive true

/-- C4 counterexample: no voice is busy and the event queue is empty, yet
ProcessBlock performs the per-block work and returns false, refuting
"when no voice is busy and the event queue is empty it skips all work and
reports silent (true)". -/
theorem processBlock_silent_counterexample :
    c4State.VoicesAreBusy = false ∧ c4State.mMidiQueue = [] ∧
    (c4State.ProcessBlock 16).2.1 = false := by
  refine ⟨by decide, by decide, by decide⟩

/-- C4 witness: the amended equivalence at a concrete idle synth whose
flag agrees with its pool, processing a 16-frame block. -/
theorem processBlock_silent_witness :
    (((((mkMidiSynth .kPolyModePoly 16 1).AddVoice {}).SetNVoices 1).ProcessBlock 16).2.1 = true ↔
      ((((mkMidiSynth .kPolyModePoly 16 1).AddVoice {}).SetNVoices 1).VoicesAreBusy = false ∧
       (((mkMidiSynth .kPolyModePoly 16 1).AddVoice {}).SetNVoices 1).mMidiQueue = [])) ∧
    (((((mkMidiSynth .kPolyModePoly 16 1).AddVoice {}).SetNVoices 1).ProcessBlock 16).2.1 = true →
      ((((mkMidiSynth .kPolyModePoly 16 1).AddVoice {}).SetNVoices 1).ProcessBlock 16).1 =
        (((mkMidiSynth .kPolyModePoly 16 1).AddVoice {}).SetNVoices 1) ∧
      ((((mkMidiSynth .kPolyModePoly 16 1).AddVoice {}).SetNVoices 1).ProcessBlock 16).2.2 = []) :=
  processBlock_silent_iff (((mkMidiSynth .kPolyModePoly 16 1).AddVoice {}).SetNVoices 1) 16
    (by decide)

/-! ### C10: the unguarded back() read in NoteOnOffMono -/

/-- C10 failing input, step 0: a freshly configured mono synth with one
voice (no note has ever been pressed). -/
def c10Start : MidiSynth := ((mkMidiSynth .kPolyModeMono 16 1).AddVoice {}).SetNVoices 1

/-- C10 failing input, step 1: the sustain pedal goes down. -/
def c10AfterPedal : MidiSynth :=
  (c10Start.handleMsg { status := .kControlChange, cc := .kSustainOnOff, ccVal := 1 }).1

/-- C10: the claimed invariant fails on a reachable state.  After only a
sustain-pedal-down control change, the synth is in Mono mode with the
pedal down, Held Keys empty (and still empty after the note-off erase for
key 60), and Sustained Notes empty — so a stray note-off for key 60
reaches the `mSustainedNotes.back()` read in MidiSynth::NoteOnOffMono
(MidiSynth.cpp line 313) with an empty vector: the access the claim
requires to stay in bounds is out of bounds.  (The model totalises that
read; this theorem shows the concrete reachable state that violates the
claimed invariant.) -/
theorem monoNoteOff_empty_sustain_reachable :
    c10AfterPedal.mPolyMode = .kPolyModeMono ∧
    c10AfterPedal.mSustainPedalDown = true ∧
    eraseFirstKey c10AfterPedal.mHeldKeys 60 = [] ∧
    c10AfterPedal.mSustainedNotes = [] := by
  refine ⟨by decide, by decide, by decide, by decide⟩

/-! ### C2: allocator characterisation -/

lemma firstFreeLoop_none (s : MidiSynth) :
    ∀ l : List Nat, (∀ v ∈ l, (s.GetVoice v).GetBusy = true) → firstFreeLoop s l = none := by
  intro l
  induction l with
  | nil => intro _; rfl
  | cons v rest ih =>
    intro h
    simp only [firstFreeLoop, h v (by simp), Bool.not_true, Bool.false_eq_true, if_false]
    exact ih fun u hu => h u (by simp [hu])

lemma firstFreeLoop_mem (s : MidiSynth) :
    ∀ (l : List Nat) (v : Nat), firstFreeLoop s l = some v →
      v ∈ l ∧ (s.GetVoice v).GetBusy = false := by
  intro l
  induction l with
  | nil => intro v h; simp [firstFreeLoop] at h
  | cons w rest ih =>
    intro v h
    simp only [firstFreeLoop] at h
    by_cases hb : (s.GetVoice w).GetBusy
    · rw [if_neg (by simp [hb])] at h
      obtain ⟨hmem, hfree⟩ := ih v h
      exact ⟨by simp [hmem], hfree⟩
    · rw [if_pos (by simp [hb])] at h
      cases h
      exact ⟨by simp, by simpa using hb⟩

lemma firstFreeLoop_range' (s : MidiSynth) :
    ∀ (n a v : Nat), a ≤ v → v < a + n → (s.GetVoice v).GetBusy = false →
      (∀ u : Nat, a ≤ u → u < v → (s.GetVoice u).GetBusy = true) →
      firstFreeLoop s (List.range' a n) = some v := by
  intro n
  induction n with
  | zero => intro a v h1 h2; omega
  | succ m ih =>
    intro a v h1 h2 hfree hbusy
    rw [List.range'_succ a m 1]
    by_cases hva : v = a
    · subst hva
      simp [firstFreeLoop, hfree]
    · have hav : a < v := by omega
      have hba : (s.GetVoice a).GetBusy = true := hbusy a le_rfl hav
      simp only [firstFreeLoop, hba, Bool.not_true, Bool.false_eq_true, if_false]
      exact ih (a + 1) v (by omega) (by omega) hfree fun u hu1 hu2 => hbusy u (by omega) hu2

lemma stealLoop_const (starts : Nat → Int) :
    ∀ (l : List Nat) (mr lp : Int), (∀ v ∈ l, ¬ starts v < mr) →
      stealLoop starts l (mr, lp) = (mr, lp) := by
  intro l
  induction l with
  | nil => intro mr lp _; rfl
  | cons v rest ih =>
    intro mr lp h
    simp only [stealLoop, if_neg (h v (by simp))]
    exact ih mr lp fun u hu => h u (by simp [hu])

lemma stealLoop_lp_nonneg (starts : Nat → Int) :
    ∀ (l : List Nat) (mr lp : Int), 0 ≤ lp → 0 ≤ (stealLoop starts l (mr, lp)).2 := by
  intro l
  induction l with
  | nil => intro mr lp h; exact h
  | cons v rest ih =>
    intro mr lp h
    simp only [stealLoop]
    split
    · exact ih _ _ (by positivity)
    · exact ih _ _ h

lemma stealLoop_improving (starts : Nat → Int) :
    ∀ (l : List Nat) (mr lp : Int), (∃ v ∈ l, starts v < mr) →
      0 ≤ (stealLoop starts l (mr, lp)).2 := by
  intro l
  induction l with
  | nil => intro mr lp h; simp at h
  | cons v rest ih =>
    intro mr lp h
    simp only [stealLoop]
    split
    · exact stealLoop_lp_nonneg starts rest _ _ (by positivity)
    · rename_i hnot
      obtain ⟨u, hu, hlt⟩ := h
      rcases List.mem_cons.mp hu with rfl | hu'
      · exact absurd hlt hnot
      · exact ih mr lp ⟨u, hu', hlt⟩

lemma stealLoop_result_cases (starts : Nat → Int) :
    ∀ (l : List Nat) (mr lp : Int),
      (stealLoop starts l (mr, lp)).2 = lp ∨
      ∃ v ∈ l, (stealLoop starts l (mr, lp)).2 = (v : Int) ∧ starts v < mr := by
  intro l
  induction l with
  | nil => intro mr lp; exact Or.inl rfl
  | cons v rest ih =>
    intro mr lp
    simp only [stealLoop]
    by_cases hv : starts v < mr
    · rw [if_pos hv]
      rcases ih (starts v) (v : Int) with h | ⟨u, hu, hequ, hltu⟩
      · exact Or.inr ⟨v, by simp, h, hv⟩
      · exact Or.inr ⟨u, by simp [hu], hequ, lt_trans hltu hv⟩
    · rw [if_neg hv]
      rcases ih mr lp with h | ⟨u, hu, hequ, hltu⟩
      · exact Or.inl h
      · exact Or.inr ⟨u, by simp [hu], hequ, hltu⟩

lemma stealLoop_argmin (starts : Nat → Int) :
    ∀ (n a : Nat) (mr lp : Int) (v : Nat), a ≤ v → v < a + n →
      starts v < mr →
      (∀ u : Nat, a ≤ u → u < a + n → starts v ≤ starts u) →
      (∀ u : Nat, a ≤ u → u < v → starts v < starts u) →
      (stealLoop starts (List.range' a n) (mr, lp)).2 = (v : Int) := by
  intro n
  induction n with
  | zero => intro a mr lp v h1 h2; omega
  | succ m ih =>
    intro a mr lp v h1 h2 hlt hmin hfirst
    rw [List.range'_succ a m 1]
    by_cases hva : v = a
    · subst hva
      simp only [stealLoop, if_pos hlt]
      rw [stealLoop_const starts _ _ _ fun u hu => by
        rw [List.mem_range'_1] at hu
        exact not_lt.mpr (hmin u (by omega) (by omega))]
    · have hav : a < v := by omega
      have hsa : starts v < starts a := hfirst a le_rfl hav
      simp only [stealLoop]
      by_cases hba : starts a < mr
      · rw [if_pos hba]
        exact ih (a + 1) (starts a) (a : Int) v (by omega) (by omega) hsa
          (fun u hu1 hu2 => hmin u (by omega) (by omega))
          (fun u hu1 hu2 => hfirst u (by omega) hu2)
      · rw [if_neg hba]
        exact ih (a + 1) mr lp v (by omega) (by omega) hlt
          (fun u hu1 hu2 => hmin u (by omega) (by omega))
          (fun u hu1 hu2 => hfirst u (by omega) hu2)

/-- C2 (amended): FindFreeVoice returns the lowest non-busy index when one
exists.  When every voice is busy it returns the lowest index attaining
the minimal startTime provided that minimum is strictly below the current
sample time; when instead every busy voice's startTime is at or after the
current sample time it returns -1 (the steal scan is seeded with the
current sample time, so no voice improves on it) — not, as claimed, the
lowest index of minimal startTime unconditionally. -/
theorem findFreeVoice_characterization (s : MidiSynth) :
    (∀ v : Nat, v < s.mNVoices → (s.GetVoice v).GetBusy = false →
       (∀ u : Nat, u < v → (s.GetVoice u).GetBusy = true) → s.FindFreeVoice = (v : Int)) ∧
    ((∀ v : Nat, v < s.mNVoices → (s.GetVoice v).GetBusy = true) →
      (∀ v : Nat, v < s.mNVoices → (s.GetVoice v).mStartTime < s.mSampleTime →
        (∀ u : Nat, u < s.mNVoices → (s.GetVoice v).mStartTime ≤ (s.GetVoice u).mStartTime) →
        (∀ u : Nat, u < v → (s.GetVoice v).mStartTime < (s.GetVoice u).mStartTime) →
        s.FindFreeVoice = (v : Int)) ∧
      ((∀ v : Nat, v < s.mNVoices → s.mSampleTime ≤ (s.GetVoice v).mStartTime) →
        s.FindFreeVoice = -1)) := by
  constructor
  · intro v hv hfree hbefore
    have hff : firstFreeLoop s (List.range s.NVoices) = some v := by
      rw [List.range_eq_range']
      exact firstFreeLoop_range' s s.NVoices 0 v (Nat.zero_le v) (by simpa using hv) hfree
        fun u _ hu => hbefore u hu
    simp [MidiSynth.FindFreeVoice, hff]
  · intro hallbusy
    have hff : firstFreeLoop s (List.range s.NVoices) = none :=
      firstFreeLoop_none s _ fun v hv => hallbusy v (List.mem_range.mp hv)
    constructor
    · intro v hv hlt hmin hfirst
      simp only [MidiSynth.FindFreeVoice, hff]
      rw [List.range_eq_range']
      exact stealLoop_argmin _ s.NVoices 0 s.mSampleTime (-1) v (Nat.zero_le v)
        (by simpa using hv) hlt
        (fun u _ hu => hmin u (by simpa using hu))
        (fun u _ hu => hfirst u hu)
    · intro hlate
      simp only [MidiSynth.FindFreeVoice, hff]
      rw [stealLoop_const (fun v => (s.GetVoice v).mStartTime) (List.range s.NVoices)
        s.mSampleTime (-1) (fun v hv => not_lt.mpr (hlate v (List.mem_range.mp hv)))]

/-- C2 counterexample state: a single busy voice whose startTime equals
the current sample time (reachable: a voice triggered in the current
sub-block has startTime = sample time). -/
def c2State : MidiSynth :=
  { mNVoices := 1, voices := [{ busy := true, mStartTime := 0 }], mSampleTime := 0 }

/-- C2 counterexample: every voice is busy and index 0 is the (unique,
hence lowest) index of minimal startTime, yet FindFreeVoice returns -1
rather than 0, refuting the claimed unconditional steal behaviour. -/
theorem findFreeVoice_counterexample :
    (∀ v : Nat, v < c2State.mNVoices → (c2State.GetVoice v).GetBusy = true) ∧
    (∀ u : Nat, u < c2State.mNVoices →
      (c2State.GetVoice 0).mStartTime ≤ (c2State.GetVoice u).mStartTime) ∧
    c2State.FindFreeVoice = -1 ∧ c2State.FindFreeVoice ≠ 0 := by
  refine ⟨by decide, by decide, by decide, by decide⟩

/-- C2 witness: the three branches of the amended characterisation at
concrete pools (a free voice at index 1; an all-busy pool whose oldest
voice is index 1; an all-busy pool with no voice older than the sample
time). -/
theorem findFreeVoice_characterization_witness :
    ({ mNVoices := 2, voices := [{ busy := true }, {}] } : MidiSynth).FindFreeVoice = 1 ∧
    ({ mNVoices := 2, voices := [{ busy := true, mStartTime := 5 }, { busy := true, mStartTime := 3 }],
       mSampleTime := 8 } : MidiSynth).FindFreeVoice = 1 ∧
    ({ mNVoices := 1, voices := [{ busy := true, mStartTime := 2 }],
       mSampleTime := 2 } : MidiSynth).FindFreeVoice = -1 :=
  ⟨(findFreeVoice_characterization _).1 1 (by decide) (by decide) (by decide),
   ((findFreeVoice_characterization _).2 (by decide)).1 1 (by decide) (by decide) (by decide)
     (by decide),
   ((findFreeVoice_characterization _).2 (by decide)).2 (by decide)⟩

/-! ### C1: poly trigger counting and note-off releases -/

lemma countTriggers_append (a b : List VAction) :
    countTriggers (a ++ b) = countTriggers a + countTriggers b := by
  simp [countTriggers, List.countP_append]

lemma firstFreeLoop_none_forall (s : MidiSynth) :
    ∀ l : List Nat, firstFreeLoop s l = none → ∀ v ∈ l, (s.GetVoice v).GetBusy = true := by
  intro l
  induction l with
  | nil => intro _ v hv; simp at hv
  | cons w rest ih =>
    intro h v hv
    simp only [firstFreeLoop] at h
    by_cases hb : (s.GetVoice w).GetBusy
    · rw [if_neg (by simp [hb])] at h
      rcases List.mem_cons.mp hv with rfl | hv'
      · exact hb
      · exact ih h v hv'
    · rw [if_pos (by simp [hb])] at h
      cases h

lemma allocatableP_false (s : MidiSynth) (v : Nat) (h : allocatableP s v = false) :
    (s.GetVoice v).GetBusy = true ∧ ¬ (s.GetVoice v).mStartTime < s.mSampleTime := by
  simp only [allocatableP, Bool.or_eq_false_iff, Bool.not_eq_false', decide_eq_false_iff_not] at h
  exact h

lemma findFreeVoice_neg1_iff (s : MidiSynth) :
    s.FindFreeVoice = -1 ↔ s.allocatable = 0 := by
  constructor
  · intro h
    cases hff : firstFreeLoop s (List.range s.NVoices) with
    | some v =>
      have hvv : s.FindFreeVoice = (v : Int) := by simp [MidiSynth.FindFreeVoice, hff]
      rw [hvv] at h
      omega
    | none =>
      simp only [MidiSynth.FindFreeVoice, hff] at h
      rw [MidiSynth.allocatable, List.countP_eq_zero]
      intro v hv
      have hbusy := firstFreeLoop_none_forall s _ hff v hv
      by_contra hp
      have hp' : allocatableP s v = true := by simpa using hp
      have hlt : (s.GetVoice v).mStartTime < s.mSampleTime := by
        simp only [allocatableP, Bool.or_eq_true, Bool.not_eq_true', decide_eq_true_eq] at hp'
        rcases hp' with hfree | hlt
        · rw [hbusy] at hfree; cases hfree
        · exact hlt
      have := stealLoop_improving (fun v => (s.GetVoice v).mStartTime)
        (List.range s.NVoices) s.mSampleTime (-1) ⟨v, hv, hlt⟩
      omega
  · intro h
    have hall : ∀ v ∈ List.range s.NVoices, allocatableP s v = false := by
      rw [MidiSynth.allocatable, List.countP_eq_zero] at h
      intro v hv
      simpa using h v hv
    have hff : firstFreeLoop s (List.range s.NVoices) = none :=
      firstFreeLoop_none s _ fun v hv => (allocatableP_false s v (hall v hv)).1
    simp only [MidiSynth.FindFreeVoice, hff]
    rw [stealLoop_const (fun v => (s.GetVoice v).mStartTime) (List.range s.NVoices)
      s.mSampleTime (-1) (fun v hv => (allocatableP_false s v (hall v hv)).2)]

lemma findFreeVoice_mem (s : MidiSynth) (h : s.FindFreeVoice ≠ -1) :
    ∃ v : Nat, s.FindFreeVoice = (v : Int) ∧ v < s.mNVoices ∧ allocatableP s v = true := by
  cases hff : firstFreeLoop s (List.range s.NVoices) with
  | some v =>
    obtain ⟨hmem, hfree⟩ := firstFreeLoop_mem s _ v hff
    refine ⟨v, by simp [MidiSynth.FindFreeVoice, hff], List.mem_range.mp hmem, ?_⟩
    simp [allocatableP, hfree]
  | none =>
    simp only [MidiSynth.FindFreeVoice, hff] at h ⊢
    rcases stealLoop_result_cases (fun v => (s.GetVoice v).mStartTime)
      (List.range s.NVoices) s.mSampleTime (-1) with hc | ⟨v, hv, heq, hlt⟩
    · exact absurd hc h
    · exact ⟨v, heq, List.mem_range.mp hv, by simp [allocatableP, hlt]⟩

lemma countP_range_flip (p q : Nat → Bool) :
    ∀ (n v : Nat), v < n → p v = true → q v = false → (∀ u : Nat, u ≠ v → p u = q u) →
      (List.range n).countP p = (List.range n).countP q + 1 := by
  intro n
  induction n with
  | zero => intro v h; omega
  | succ m ih =>
    intro v hv hp hq hagree
    rw [List.range_succ, List.countP_append, List.countP_append]
    by_cases hvm : v = m
    · have hcong : (List.range m).countP p = (List.range m).countP q := by
        refine List.countP_congr fun u hu => ?_
        have hum : u < m := List.mem_range.mp hu
        rw [hagree u (by omega)]
      have hpm : p m = true := by rw [← hvm]; exact hp
      have hqm : q m = false := by rw [← hvm]; exact hq
      rw [hcong]
      simp [List.countP_cons, hpm, hqm]
    · have hvm' : v < m := by omega
      have hpm : p m = q m := hagree m (by omega)
      have hsingle : [m].countP p = [m].countP q := by simp [List.countP_cons, hpm]
      rw [ih v hvm' hp hq hagree]
      omega

lemma allocatable_congr (s t : MidiSynth) (hv : t.voices = s.voices)
    (hn : t.mNVoices = s.mNVoices) (ht : t.mSampleTime = s.mSampleTime) :
    t.allocatable = s.allocatable := by
  unfold MidiSynth.allocatable
  rw [hn]
  refine List.countP_congr fun u _ => ?_
  simp [allocatableP, MidiSynth.GetVoice, hv, ht]

lemma allocatable_after_trigger (s : MidiSynth) (v : Nat) (vo : Voice)
    (hv : v < s.mNVoices) (hlen : v < s.voices.length)
    (hbusy : vo.GetBusy = true) (hstart : vo.mStartTime = s.mSampleTime)
    (halloc : allocatableP s v = true) :
    s.allocatable = (s.setVoice v vo).allocatable + 1 := by
  have hq : allocatableP (s.setVoice v vo) v = false := by
    simp only [allocatableP, GetVoice_setVoice_self s v vo hlen]
    simp [hbusy, hstart, MidiSynth.setVoice]
  have hagree : ∀ u : Nat, u ≠ v → allocatableP s u = allocatableP (s.setVoice v vo) u := by
    intro u hu
    simp only [allocatableP, GetVoice_setVoice_ne s u v vo hu]
    rfl
  exact countP_range_flip (allocatableP s) (allocatableP (s.setVoice v vo)) s.mNVoices v hv
    halloc hq hagree

lemma triggerUnisonLoop_count (kp : KeyPressInfo) :
    ∀ (r uv : Nat) (s : MidiSynth) (acts : List VAction), s.mNVoices ≤ s.voices.length →
      countTriggers (triggerUnisonLoop kp uv r s acts).2.1 =
        countTriggers acts + min r s.allocatable := by
  intro r
  induction r with
  | zero => intro uv s acts _; simp [triggerUnisonLoop]
  | succ m ih =>
    intro uv s acts hlen
    simp only [triggerUnisonLoop]
    by_cases hz : s.allocatable = 0
    · rw [if_pos ((findFreeVoice_neg1_iff s).mpr hz)]
      simp [hz]
    · have hne : s.FindFreeVoice ≠ -1 := fun hcon => hz ((findFreeVoice_neg1_iff s).mp hcon)
      obtain ⟨v, hveq, hvn, hvp⟩ := findFreeVoice_mem s hne
      rw [if_neg hne, hveq, Int.toNat_natCast]
      set vo := ({ s.GetVoice v with
          mStartTime := s.mSampleTime
          mKey := kp.mKey
          mStackIdx := (uv : Int)
          mBasePitch := s.GetAdjustedPitch kp.mKey
          mAftertouch := 0 } : Voice).Trigger with hvo
      have hlen2 : (s.setVoice v vo).mNVoices ≤ (s.setVoice v vo).voices.length := by
        rw [setVoice_voices_length]
        exact hlen
      rw [ih (uv + 1) (s.setVoice v vo) _ hlen2, countTriggers_append]
      have hdec : s.allocatable = (s.setVoice v vo).allocatable + 1 :=
        allocatable_after_trigger s v vo hvn (by omega) (by simp [hvo, Voice.Trigger, Voice.GetBusy])
          (by simp [hvo, Voice.Trigger]) hvp
      rw [hdec]
      have hone : countTriggers [VAction.trigger v kp.mVelNorm
          (({ s.GetVoice v with
              mStartTime := s.mSampleTime
              mKey := kp.mKey
              mStackIdx := (uv : Int)
              mBasePitch := s.GetAdjustedPitch kp.mKey
              mAftertouch := 0 } : Voice).GetBusy)] = 1 := by
        simp [countTriggers]
      rw [hone, Nat.succ_min_succ]
      omega

lemma countTriggers_if_pair (c : Prop) [Decidable c] (x y : MidiSynth) (a : List VAction) :
    (if c then (x, a) else (y, a)).2 = a := by
  split <;> rfl

lemma TriggerPolyNote_count (s : MidiSynth) (kp : KeyPressInfo)
    (hlen : s.mNVoices ≤ s.voices.length) :
    countTriggers (s.TriggerPolyNote kp).2 = min s.mUnisonVoices s.allocatable := by
  simp only [MidiSynth.TriggerPolyNote]
  by_cases h1 : containsKey s.mHeldKeys kp.mKey = true
  · rw [if_pos h1]
    by_cases h2 : containsKey s.mSustainedNotes kp.mKey = true
    · rw [if_pos h2, countTriggers_if_pair]
      refine (triggerUnisonLoop_count kp _ 0 _ [] ?_).trans ?_
      · exact hlen
      · show countTriggers [] + min s.mUnisonVoices s.allocatable = min s.mUnisonVoices s.allocatable
        simp [countTriggers]
    · rw [if_neg h2, countTriggers_if_pair]
      refine (triggerUnisonLoop_count kp _ 0 _ [] ?_).trans ?_
      · exact hlen
      · show countTriggers [] + min s.mUnisonVoices s.allocatable = min s.mUnisonVoices s.allocatable
        simp [countTriggers]
  · rw [if_neg h1]
    by_cases h2 : containsKey s.mSustainedNotes kp.mKey = true
    · rw [if_pos h2, countTriggers_if_pair]
      refine (triggerUnisonLoop_count kp _ 0 _ [] ?_).trans ?_
      · exact hlen
      · show countTriggers [] + min s.mUnisonVoices s.allocatable = min s.mUnisonVoices s.allocatable
        simp [countTriggers]
    · rw [if_neg h2, countTriggers_if_pair]
      refine (triggerUnisonLoop_count kp _ 0 _ [] ?_).trans ?_
      · exact hlen
      · show countTriggers [] + min s.mUnisonVoices s.allocatable = min s.mUnisonVoices s.allocatable
        simp [countTriggers]

lemma stopVoicesLoop_acts (note : Int) :
    ∀ (l : List Nat), l.Nodup → ∀ (s : MidiSynth) (acts : List VAction),
      (stopVoicesLoop note l s acts).2 = acts ++ l.filterMap (fun v =>
        if (s.GetVoice v).mKey = note ∧ (s.GetVoice v).GetBusy = true
        then some (.release v) else none) := by
  intro l
  induction l with
  | nil => intro _ s acts; simp [stopVoicesLoop]
  | cons v rest ih =>
    intro hnd s acts
    have hnd' : rest.Nodup := (List.nodup_cons.mp hnd).2
    have hvnot : v ∉ rest := (List.nodup_cons.mp hnd).1
    simp only [stopVoicesLoop]
    by_cases h1 : (s.GetVoice v).mKey = note
    · rw [if_pos h1]
      by_cases h2 : (s.GetVoice v).GetBusy = true
      · rw [if_pos h2, ih hnd']
        have hcong : (rest.filterMap fun u =>
            if ((s.setVoice v ((s.GetVoice v).Release.RemovedFromKey)).GetVoice u).mKey = note ∧
               ((s.setVoice v ((s.GetVoice v).Release.RemovedFromKey)).GetVoice u).GetBusy = true
            then some (VAction.release u) else none) =
            rest.filterMap fun u =>
              if (s.GetVoice u).mKey = note ∧ (s.GetVoice u).GetBusy = true
              then some (VAction.release u) else none := by
          refine List.filterMap_congr fun u hu => ?_
          rw [GetVoice_setVoice_ne s u v _ (fun hc => hvnot (hc ▸ hu))]
        rw [hcong]
        simp [List.filterMap_cons, h1, h2]
      · rw [if_neg h2, ih hnd']
        have h2' : (s.GetVoice v).GetBusy = false := by simpa using h2
        simp [List.filterMap_cons, h1, h2']
    · rw [if_neg h1, ih hnd']
      simp [List.filterMap_cons, h1]

/-- C1 (amended): in Poly mode, a note-on with velocity > 0 produces
exactly `min unisonVoices allocatable` Trigger calls, where a voice is
"allocatable" when it is not busy or its startTime is strictly before the
current sample time; in particular exactly `unisonVoices` Trigger calls
whenever at least `unisonVoices` voices are allocatable, but possibly
fewer — with a non-empty pool the allocator still returns no target (-1)
when every voice is busy with startTime at or after the current sample
time, and the unison loop then returns early.  A note-off with the
sustain pedal up issues Release calls to exactly the busy voices whose
key field equals the released key. -/
theorem polyNote_trigger_count (s : MidiSynth) (hlen : s.mNVoices ≤ s.voices.length) :
    (∀ msg : IMidiMsg, msg.status = .kNoteOn → msg.velocity ≠ 0 →
       countTriggers (s.NoteOnOffPoly msg).2 = min s.mUnisonVoices s.allocatable) ∧
    (∀ msg : IMidiMsg, msg.status = .kNoteOff → s.mSustainPedalDown = false →
       (s.NoteOnOffPoly msg).2 = (List.range s.mNVoices).filterMap (fun v =>
          if (s.GetVoice v).mKey = msg.noteNumber ∧ (s.GetVoice v).GetBusy = true
          then some (.release v) else none)) ∧
    (s.FindFreeVoice = -1 ↔ s.allocatable = 0) := by
  refine ⟨?_, ?_, findFreeVoice_neg1_iff s⟩
  · intro msg hst hvel
    rw [MidiSynth.NoteOnOffPoly, if_pos ⟨hst, hvel⟩]
    exact TriggerPolyNote_count s _ hlen
  · intro msg hst hped
    rw [MidiSynth.NoteOnOffPoly, if_neg (by rw [hst]; rintro ⟨h, -⟩; cases h)]
    have hped' : ({ s with mHeldKeys := eraseFirstKey s.mHeldKeys msg.noteNumber } :
        MidiSynth).mSustainPedalDown = false := hped
    rw [if_pos (by rw [hped']; rfl)]
    show (stopVoicesLoop msg.noteNumber (List.range s.NVoices) _ []).2 = _
    rw [stopVoicesLoop_acts msg.noteNumber (List.range s.NVoices) (List.nodup_range _) _ []]
    rfl

/-- C1 counterexample, step 0: Poly synth with a one-voice pool and one
unison voice. -/
def c1Start : MidiSynth := ((mkMidiSynth .kPolyModePoly 16 1).AddVoice {}).SetNVoices 1

/-- C1 counterexample, step 1: note-on for key 60 (velocity 100) was
processed: voice 0 is busy with startTime = sample time = 0. -/
def c1AfterOn : MidiSynth :=
  (c1Start.NoteOnOffPoly { status := .kNoteOn, noteNumber := 60, velocity := 100 }).1

/-- C1 counterexample, step 2: the matching note-off for key 60 was
processed (pedal up): voice 0 was released but still reports busy while
it fades out. -/
def c1AfterOff : MidiSynth :=
  (c1AfterOn.NoteOnOffPoly { status := .kNoteOff, noteNumber := 60, velocity := 0 }).1

/-- C1 counterexample: in the note-on/note-off/note-on sequence for
distinct keys 60 and 64 within the same sub-block, the pool is non-empty
and unisonVoices = 1, yet the second note-on produces zero Trigger calls:
the allocator returns -1 because the only voice is busy with startTime
equal to the current sample time. -/
theorem polyNote_trigger_counterexample :
    c1AfterOff.mNVoices = 1 ∧ c1AfterOff.mUnisonVoices = 1 ∧
    c1AfterOff.FindFreeVoice = -1 ∧
    countTriggers
      (c1AfterOff.NoteOnOffPoly { status := .kNoteOn, noteNumber := 64, velocity := 100 }).2 = 0 ∧
    ¬ countTriggers
      (c1AfterOff.NoteOnOffPoly { status := .kNoteOn, noteNumber := 64, velocity := 100 }).2 =
        c1AfterOff.mUnisonVoices := by
  refine ⟨by decide, by decide, by decide, by decide, by decide⟩

/-- C1 witness: the amended statement applied at a fresh one-voice Poly
synth (note-on for key 60 triggers min 1 1 = 1 voice) and at a one-voice
pool with a busy voice on key 60 (note-off releases exactly voice 0). -/
theorem polyNote_trigger_count_witness :
    countTriggers
      (c1Start.NoteOnOffPoly { status := .kNoteOn, noteNumber := 60, velocity := 100 }).2 =
        min c1Start.mUnisonVoices c1Start.allocatable ∧
    (({ mNVoices := 1, voices := [{ busy := true, mKey := 60, mStartTime := 0 }] } :
        MidiSynth).NoteOnOffPoly { status := .kNoteOff, noteNumber := 60, velocity := 0 }).2 =
      (List.range ({ mNVoices := 1, voices := [{ busy := true, mKey := 60, mStartTime := 0 }] } :
          MidiSynth).mNVoices).filterMap (fun v =>
        if (({ mNVoices := 1, voices := [{ busy := true, mKey := 60, mStartTime := 0 }] } :
            MidiSynth).GetVoice v).mKey = (60 : Int) ∧
           (({ mNVoices := 1, voices := [{ busy := true, mKey := 60, mStartTime := 0 }] } :
            MidiSynth).GetVoice v).GetBusy = true
        then some (.release v) else none) :=
  ⟨(polyNote_trigger_count c1Start (by decide)).1
      { status := .kNoteOn, noteNumber := 60, velocity := 100 } rfl (by decide),
   (polyNote_trigger_count
      { mNVoices := 1, voices := [{ busy := true, mKey := 60, mStartTime := 0 }] }
      (by decide)).2.1 { status := .kNoteOff, noteNumber := 60, velocity := 0 } rfl rfl⟩

/-! ### C5: Held Keys invariant -/

/-- The key numbers of a KeyPressInfo list. -/
def keysOf (l : List KeyPressInfo) : List Int := l.map KeyPressInfo.mKey

/-- No two entries share a key. -/
def noDupKeys (l : List KeyPressInfo) : Prop := (keysOf l).Nodup

lemma containsKey_iff (l : List KeyPressInfo) (k : Int) :
    containsKey l k = true ↔ k ∈ keysOf l := by
  simp only [containsKey, keysOf, List.any_eq_true, List.mem_map, beq_iff_eq]

lemma eraseFirstKey_sublist (l : List KeyPressInfo) (k : Int) :
    List.Sublist (eraseFirstKey l k) l := by
  induction l with
  | nil => simp [eraseFirstKey]
  | cons hd t ih =>
    simp only [eraseFirstKey]
    by_cases hk : hd.mKey = k
    · rw [if_pos hk]; exact List.sublist_cons_self hd t
    · rw [if_neg hk]; exact List.Sublist.cons₂ hd ih

lemma noDupKeys_eraseFirstKey (l : List KeyPressInfo) (k : Int) (h : noDupKeys l) :
    noDupKeys (eraseFirstKey l k) :=
  h.sublist ((eraseFirstKey_sublist l k).map KeyPressInfo.mKey)

lemma eraseFirstKey_not_mem (l : List KeyPressInfo) (k : Int) (h : noDupKeys l) :
    k ∉ keysOf (eraseFirstKey l k) := by
  induction l with
  | nil => simp [eraseFirstKey, keysOf]
  | cons hd t ih =>
    have hnd : noDupKeys t := (List.nodup_cons.mp h).2
    have hhd : hd.mKey ∉ keysOf t := (List.nodup_cons.mp h).1
    simp only [eraseFirstKey]
    by_cases hk : hd.mKey = k
    · rw [if_pos hk]; exact hk ▸ hhd
    · rw [if_neg hk]
      simp only [keysOf, List.map_cons, List.mem_cons, not_or]
      exact ⟨fun hc => hk hc.symm, ih hnd⟩

lemma noDupKeys_append (l : List KeyPressInfo) (kp : KeyPressInfo) (h : noDupKeys l)
    (hnm : ¬ containsKey l kp.mKey = true) : noDupKeys (l ++ [kp]) := by
  have hmem : kp.mKey ∉ keysOf l := fun hc => hnm ((containsKey_iff l kp.mKey).mpr hc)
  simp only [noDupKeys, keysOf, List.map_append, List.map_cons, List.map_nil]
  rw [List.nodup_append]
  refine ⟨h, List.nodup_singleton _, ?_⟩
  intro a ha hb
  rw [List.mem_singleton] at hb
  exact hmem (hb ▸ ha)

lemma TriggerPolyNote_mHeldKeys (s : MidiSynth) (kp : KeyPressInfo) :
    (s.TriggerPolyNote kp).1.mHeldKeys =
      if containsKey s.mHeldKeys kp.mKey = true then s.mHeldKeys else s.mHeldKeys ++ [kp] := by
  simp only [MidiSynth.TriggerPolyNote]
  by_cases h1 : containsKey s.mHeldKeys kp.mKey = true
  · rw [if_pos h1, if_pos h1]
    by_cases h2 : containsKey s.mSustainedNotes kp.mKey = true
    · rw [if_pos h2]
      split
      · rw [triggerUnisonLoop_state]
      · rw [triggerUnisonLoop_state]
    · rw [if_neg h2]
      split
      · rw [triggerUnisonLoop_state]
      · rw [triggerUnisonLoop_state]
  · rw [if_neg h1, if_neg h1]
    by_cases h2 : containsKey (({ s with mHeldKeys := s.mHeldKeys ++ [kp] } :
        MidiSynth)).mSustainedNotes kp.mKey = true
    · rw [if_pos h2]
      split
      · rw [triggerUnisonLoop_state]
      · rw [triggerUnisonLoop_state]
    · rw [if_neg h2]
      split
      · rw [triggerUnisonLoop_state]
      · rw [triggerUnisonLoop_state]

lemma TriggerMonoNote_mHeldKeys (s : MidiSynth) (note : KeyPressInfo) :
    (s.TriggerMonoNote note).1.mHeldKeys = s.mHeldKeys := by
  show ({ (triggerMonoLoop note (List.range s.mUnisonVoices) s []).1 with
    mVoicesAreActive := true } : MidiSynth).mHeldKeys = s.mHeldKeys
  rw [triggerMonoLoop_state]

lemma StopVoicesForKey_mHeldKeys (s : MidiSynth) (note : Int) :
    (s.StopVoicesForKey note).1.mHeldKeys = s.mHeldKeys := by
  show (stopVoicesLoop note (List.range s.NVoices) s []).1.mHeldKeys = s.mHeldKeys
  rw [stopVoicesLoop_state]

lemma NoteOnOffPoly_mHeldKeys (s : MidiSynth) (msg : IMidiMsg) :
    (s.NoteOnOffPoly msg).1.mHeldKeys =
      if msg.status = .kNoteOn ∧ msg.velocity ≠ 0 then
        (if containsKey s.mHeldKeys msg.noteNumber = true then s.mHeldKeys
         else s.mHeldKeys ++ [⟨msg.noteNumber,
            ((Clip (s.mVelocityLUT msg.velocity) 1 127 : Int) : ℚ) / 127⟩])
      else eraseFirstKey s.mHeldKeys msg.noteNumber := by
  by_cases hOn : msg.status = .kNoteOn ∧ msg.velocity ≠ 0
  · simp only [MidiSynth.NoteOnOffPoly]
    conv_rhs => rw [if_pos hOn]
    rw [if_pos hOn, TriggerPolyNote_mHeldKeys]
  · simp only [MidiSynth.NoteOnOffPoly]
    conv_rhs => rw [if_neg hOn]
    rw [if_neg hOn]
    split
    · rw [StopVoicesForKey_mHeldKeys]
    · rfl

lemma NoteOnOffMono_mHeldKeys (s : MidiSynth) (msg : IMidiMsg) :
    (s.NoteOnOffMono msg).1.mHeldKeys =
      if msg.status = .kNoteOn ∧ msg.velocity ≠ 0 then
        (if containsKey s.mHeldKeys msg.noteNumber = true then s.mHeldKeys
         else s.mHeldKeys ++ [⟨msg.noteNumber,
            ((Clip (s.mVelocityLUT msg.velocity) 1 127 : Int) : ℚ) / 127⟩])
      else eraseFirstKey s.mHeldKeys msg.noteNumber := by
  by_cases hOn : msg.status = .kNoteOn ∧ msg.velocity ≠ 0
  · simp only [MidiSynth.NoteOnOffMono]
    conv_rhs => rw [if_pos hOn]
    rw [if_pos hOn]
    by_cases hc : containsKey s.mHeldKeys msg.noteNumber = true
    · conv_rhs => rw [if_pos hc]
      rw [if_pos hc, TriggerMonoNote_mHeldKeys]
    · conv_rhs => rw [if_neg hc]
      rw [if_neg hc, TriggerMonoNote_mHeldKeys]
  · simp only [MidiSynth.NoteOnOffMono]
    conv_rhs => rw [if_neg hOn]
    rw [if_neg hOn]
    split
    · split
      · rw [TriggerMonoNote_mHeldKeys]
      · rfl
    · split
      · split
        · rw [TriggerMonoNote_mHeldKeys]
        · rfl
      · rw [StopVoicesForKey_mHeldKeys]

/-- C5: for any state whose Held Keys has no duplicate keys, processing
any note event in either polyphony mode preserves that, and a note-off
(or note-on with velocity 0) leaves the released key absent from Held
Keys, regardless of the sustain-pedal state.  (Starting from the
constructed synth, whose Held Keys is empty and trivially duplicate-free,
the invariant therefore holds after every sequence of note events.) -/
theorem heldKeys_invariant (s : MidiSynth) (msg : IMidiMsg) (h : noDupKeys s.mHeldKeys) :
    (noDupKeys (s.NoteOnOffPoly msg).1.mHeldKeys ∧
     noDupKeys (s.NoteOnOffMono msg).1.mHeldKeys) ∧
    (¬ (msg.status = .kNoteOn ∧ msg.velocity ≠ 0) →
      msg.noteNumber ∉ keysOf (s.NoteOnOffPoly msg).1.mHeldKeys ∧
      msg.noteNumber ∉ keysOf (s.NoteOnOffMono msg).1.mHeldKeys) := by
  have hkey : ∀ t : List KeyPressInfo,
      (t = if msg.status = .kNoteOn ∧ msg.velocity ≠ 0 then
        (if containsKey s.mHeldKeys msg.noteNumber = true then s.mHeldKeys
         else s.mHeldKeys ++ [⟨msg.noteNumber,
            ((Clip (s.mVelocityLUT msg.velocity) 1 127 : Int) : ℚ) / 127⟩])
      else eraseFirstKey s.mHeldKeys msg.noteNumber) →
      noDupKeys t ∧ (¬ (msg.status = .kNoteOn ∧ msg.velocity ≠ 0) →
        msg.noteNumber ∉ keysOf t) := by
    intro t ht
    by_cases hOn : msg.status = .kNoteOn ∧ msg.velocity ≠ 0
    · rw [if_pos hOn] at ht
      refine ⟨?_, fun hc => absurd hOn hc⟩
      by_cases hc : containsKey s.mHeldKeys msg.noteNumber = true
      · rw [if_pos hc] at ht; exact ht ▸ h
      · rw [if_neg hc] at ht; exact ht ▸ noDupKeys_append _ _ h hc
    · rw [if_neg hOn] at ht
      exact ⟨ht ▸ noDupKeys_eraseFirstKey _ _ h,
        fun _ => ht ▸ eraseFirstKey_not_mem _ _ h⟩
  obtain ⟨hp1, hp2⟩ := hkey _ (NoteOnOffPoly_mHeldKeys s msg)
  obtain ⟨hm1, hm2⟩ := hkey _ (NoteOnOffMono_mHeldKeys s msg)
  exact ⟨⟨hp1, hm1⟩, fun hoff => ⟨hp2 hoff, hm2 hoff⟩⟩

/-- C5 witness: the invariant applied at a state holding keys 60 and 64
processing a note-off for key 60 — both handlers keep Held Keys
duplicate-free and remove key 60. -/
theorem heldKeys_invariant_witness :
    (noDupKeys (({ mHeldKeys := [⟨60, 1⟩, ⟨64, 1⟩] } : MidiSynth).NoteOnOffPoly
        { status := .kNoteOff, noteNumber := 60 }).1.mHeldKeys ∧
     noDupKeys (({ mHeldKeys := [⟨60, 1⟩, ⟨64, 1⟩] } : MidiSynth).NoteOnOffMono
        { status := .kNoteOff, noteNumber := 60 }).1.mHeldKeys) ∧
    (¬ (({ status := .kNoteOff, noteNumber := 60 } : IMidiMsg).status = .kNoteOn ∧
        ({ status := .kNoteOff, noteNumber := 60 } : IMidiMsg).velocity ≠ 0) →
      ({ status := .kNoteOff, noteNumber := 60 } : IMidiMsg).noteNumber ∉
        keysOf (({ mHeldKeys := [⟨60, 1⟩, ⟨64, 1⟩] } : MidiSynth).NoteOnOffPoly
          { status := .kNoteOff, noteNumber := 60 }).1.mHeldKeys ∧
      ({ status := .kNoteOff, noteNumber := 60 } : IMidiMsg).noteNumber ∉
        keysOf (({ mHeldKeys := [⟨60, 1⟩, ⟨64, 1⟩] } : MidiSynth).NoteOnOffMono
          { status := .kNoteOff, noteNumber := 60 }).1.mHeldKeys) :=
  heldKeys_invariant { mHeldKeys := [⟨60, 1⟩, ⟨64, 1⟩] }
    { status := .kNoteOff, noteNumber := 60 } (by unfold noDupKeys keysOf; decide)

/-! ### C7: mono/legato per-voice trigger rule -/

/-- The per-voice assignment TriggerMonoNote performs unconditionally:
key, unison stack index, adjusted base pitch, zeroed aftertouch. -/
def monoAssign (s : MidiSynth) (note : KeyPressInfo) (v : Nat) : Voice :=
  { s.GetVoice v with
    mKey := note.mKey
    mStackIdx := (v : Int)
    mBasePitch := s.GetAdjustedPitch note.mKey
    mAftertouch := 0 }

/-- The Trigger call TriggerMonoNote makes for unison slot `v` (none in
Legato mode for a busy, unreleased voice). -/
def monoTraceF (s : MidiSynth) (note : KeyPressInfo) (v : Nat) : Option VAction :=
  if !(s.GetVoice v).GetBusy then some (.trigger v note.mVelNorm false)
  else if s.mPolyMode = .kPolyModeMono || (s.GetVoice v).GetReleased then
    some (.trigger v note.mVelNorm true)
  else none

/-- The final state of unison slot `v` after TriggerMonoNote. -/
def monoVoiceF (s : MidiSynth) (note : KeyPressInfo) (v : Nat) : Voice :=
  if !(s.GetVoice v).GetBusy || (s.mPolyMode = .kPolyModeMono || (s.GetVoice v).GetReleased)
  then (monoAssign s note v).Trigger else monoAssign s note v

lemma monoTraceF_setVoice (s : MidiSynth) (note : KeyPressInfo) (v : Nat) (X : Voice)
    (u : Nat) (h : u ≠ v) : monoTraceF (s.setVoice v X) note u = monoTraceF s note u := by
  unfold monoTraceF
  rw [GetVoice_setVoice_ne s u v X h]
  rfl

lemma monoVoiceF_setVoice (s : MidiSynth) (note : KeyPressInfo) (v : Nat) (X : Voice)
    (u : Nat) (h : u ≠ v) : monoVoiceF (s.setVoice v X) note u = monoVoiceF s note u := by
  unfold monoVoiceF monoAssign
  rw [GetVoice_setVoice_ne s u v X h]
  rfl

lemma triggerMonoLoop_spec (note : KeyPressInfo) :
    ∀ (l : List Nat), l.Nodup → ∀ (s : MidiSynth) (acts : List VAction),
      (triggerMonoLoop note l s acts).2 =
        acts ++ l.filterMap (fun v => monoTraceF s note v) ∧
      (triggerMonoLoop note l s acts).1.voices.length = s.voices.length ∧
      ∀ u : Nat, u < s.voices.length →
        (triggerMonoLoop note l s acts).1.GetVoice u =
          if u ∈ l then monoVoiceF s note u else s.GetVoice u := by
  intro l
  induction l with
  | nil =>
    intro _ s acts
    refine ⟨by simp [triggerMonoLoop], rfl, fun u _ => by simp [triggerMonoLoop]⟩
  | cons v rest ih =>
    intro hnd s acts
    have hnd' : rest.Nodup := (List.nodup_cons.mp hnd).2
    have hvnot : v ∉ rest := (List.nodup_cons.mp hnd).1
    by_cases hfree : (s.GetVoice v).GetBusy = false
    · -- idle voice: fresh trigger
      have hcond : (!({ s.GetVoice v with
          mKey := note.mKey, mStackIdx := (v : Int),
          mBasePitch := s.GetAdjustedPitch note.mKey,
          mAftertouch := 0 } : Voice).GetBusy) = true := by
        simp only [Voice.GetBusy] at hfree ⊢
        simp [hfree]
      have hstep : triggerMonoLoop note (v :: rest) s acts =
          triggerMonoLoop note rest (s.setVoice v (monoAssign s note v).Trigger)
            (acts ++ [.trigger v note.mVelNorm false]) := by
        simp only [triggerMonoLoop]
        rw [if_pos hcond]
        rfl
      obtain ⟨ht, hl, hv⟩ := ih hnd' (s.setVoice v (monoAssign s note v).Trigger)
        (acts ++ [.trigger v note.mVelNorm false])
      rw [hstep]
      have htr : monoTraceF s note v = some (.trigger v note.mVelNorm false) := by
        unfold monoTraceF
        rw [if_pos (by simp [hfree])]
      have hvo : monoVoiceF s note v = (monoAssign s note v).Trigger := by
        unfold monoVoiceF
        rw [if_pos (by simp [hfree])]
      refine ⟨?_, by rw [hl, setVoice_voices_length], ?_⟩
      · rw [ht, List.filterMap_cons, htr]
        rw [List.filterMap_congr fun u hu =>
          monoTraceF_setVoice s note v _ u (fun hc => hvnot (hc ▸ hu))]
        simp
      · intro u hu
        rw [hv u (by rw [setVoice_voices_length]; exact hu)]
        by_cases huv : u = v
        · subst huv
          rw [if_neg (by simpa using hvnot), if_pos (by simp), hvo,
            GetVoice_setVoice_self s u _ hu]
        · rw [GetVoice_setVoice_ne s u v _ huv,
            monoVoiceF_setVoice s note v _ u huv]
          by_cases hur : u ∈ rest
          · rw [if_pos hur, if_pos (by simp [hur])]
          · rw [if_neg hur, if_neg (by simp [hur, huv])]
    · -- busy voice
      have hbusy : (s.GetVoice v).GetBusy = true := by simpa using hfree
      have hcond : (!({ s.GetVoice v with
          mKey := note.mKey, mStackIdx := (v : Int),
          mBasePitch := s.GetAdjustedPitch note.mKey,
          mAftertouch := 0 } : Voice).GetBusy) = false := by
        simp only [Voice.GetBusy] at hbusy ⊢
        simp [hbusy]
      by_cases hret : (decide (s.mPolyMode = .kPolyModeMono) ||
          (s.GetVoice v).GetReleased) = true
      · -- strict mono or released: re-trigger
        have hret' : (decide (s.mPolyMode = .kPolyModeMono) ||
            ({ s.GetVoice v with
              mKey := note.mKey, mStackIdx := (v : Int),
              mBasePitch := s.GetAdjustedPitch note.mKey,
              mAftertouch := 0 } : Voice).GetReleased) = true := by
          simpa only [Voice.GetReleased] using hret
        have hstep : triggerMonoLoop note (v :: rest) s acts =
            triggerMonoLoop note rest (s.setVoice v (monoAssign s note v).Trigger)
              (acts ++ [.trigger v note.mVelNorm true]) := by
          simp only [triggerMonoLoop]
          rw [if_neg (by simp [hcond]), if_pos hret']
          rfl
        obtain ⟨ht, hl, hv⟩ := ih hnd' (s.setVoice v (monoAssign s note v).Trigger)
          (acts ++ [.trigger v note.mVelNorm true])
        rw [hstep]
        have htr : monoTraceF s note v = some (.trigger v note.mVelNorm true) := by
          unfold monoTraceF
          rw [if_neg (by simp [hbusy]), if_pos hret]
        have hvo : monoVoiceF s note v = (monoAssign s note v).Trigger := by
          unfold monoVoiceF
          rw [if_pos (by
            simp only [Bool.or_eq_true, decide_eq_true_eq] at hret ⊢
            exact Or.inr hret)]
        refine ⟨?_, by rw [hl, setVoice_voices_length], ?_⟩
        · rw [ht, List.filterMap_cons, htr]
          rw [List.filterMap_congr fun u hu =>
            monoTraceF_setVoice s note v _ u (fun hc => hvnot (hc ▸ hu))]
          simp
        · intro u hu
          rw [hv u (by rw [setVoice_voices_length]; exact hu)]
          by_cases huv : u = v
          · subst huv
            rw [if_neg (by simpa using hvnot), if_pos (by simp), hvo,
              GetVoice_setVoice_self s u _ hu]
          · rw [GetVoice_setVoice_ne s u v _ huv,
              monoVoiceF_setVoice s note v _ u huv]
            by_cases hur : u ∈ rest
            · rw [if_pos hur, if_pos (by simp [hur])]
            · rw [if_neg hur, if_neg (by simp [hur, huv])]
      · -- legato, still sounding: no trigger, assignment only
        have hret0 : (decide (s.mPolyMode = .kPolyModeMono) ||
            (s.GetVoice v).GetReleased) = false := Bool.eq_false_iff.mpr hret
        have hret' : (decide (s.mPolyMode = .kPolyModeMono) ||
            ({ s.GetVoice v with
              mKey := note.mKey, mStackIdx := (v : Int),
              mBasePitch := s.GetAdjustedPitch note.mKey,
              mAftertouch := 0 } : Voice).GetReleased) = false := by
          have hsame : ({ s.GetVoice v with
              mKey := note.mKey, mStackIdx := (v : Int),
              mBasePitch := s.GetAdjustedPitch note.mKey,
              mAftertouch := 0 } : Voice).GetReleased = (s.GetVoice v).GetReleased := rfl
          rw [hsame]
          exact hret0
        have hstep : triggerMonoLoop note (v :: rest) s acts =
            triggerMonoLoop note rest (s.setVoice v (monoAssign s note v)) acts := by
          simp only [triggerMonoLoop]
          rw [if_neg (by simp [hcond]), if_neg (by simp [hret'])]
          rfl
        obtain ⟨ht, hl, hv⟩ := ih hnd' (s.setVoice v (monoAssign s note v)) acts
        rw [hstep]
        have htr : monoTraceF s note v = none := by
          unfold monoTraceF
          rw [if_neg (by simp [hbusy]), if_neg (by simp [hret])]
        have hvo : monoVoiceF s note v = monoAssign s note v := by
          have hretF : (decide (s.mPolyMode = .kPolyModeMono) ||
              (s.GetVoice v).GetReleased) = false := Bool.eq_false_iff.mpr hret
          have hn : (!(s.GetVoice v).GetBusy ||
              (decide (s.mPolyMode = .kPolyModeMono) || (s.GetVoice v).GetReleased)) = false := by
            rw [Bool.or_eq_false_iff]
            exact ⟨by simp [hbusy], hretF⟩
          unfold monoVoiceF
          rw [if_neg (by simp [hn])]
        refine ⟨?_, by rw [hl, setVoice_voices_length], ?_⟩
        · rw [ht, List.filterMap_cons, htr]
          rw [List.filterMap_congr fun u hu =>
            monoTraceF_setVoice s note v _ u (fun hc => hvnot (hc ▸ hu))]
        · intro u hu
          rw [hv u (by rw [setVoice_voices_length]; exact hu)]
          by_cases huv : u = v
          · subst huv
            rw [if_neg (by simpa using hvnot), if_pos (by simp), hvo,
              GetVoice_setVoice_self s u _ hu]
          · rw [GetVoice_setVoice_ne s u v _ huv,
              monoVoiceF_setVoice s note v _ u huv]
            by_cases hur : u ∈ rest
            · rw [if_pos hur, if_pos (by simp [hur])]
            · rw [if_neg hur, if_neg (by simp [hur, huv])]

/-- C7: when a mono/legato note is triggered, every unison slot gets the
key / stack-index / adjusted-pitch / zeroed-aftertouch assignment, and the
Trigger calls are exactly: a non-busy voice is triggered with
isRetrigger = false; a busy voice is triggered with isRetrigger = true
precisely when the polyphony mode is strict Mono or the voice reports
released; a busy, unreleased voice in any other mode gets no Trigger call
(its assignment still happens). -/
theorem triggerMonoNote_per_voice (s : MidiSynth) (note : KeyPressInfo)
    (hlen : s.mUnisonVoices ≤ s.voices.length) :
    (s.TriggerMonoNote note).2 =
      (List.range s.mUnisonVoices).filterMap (fun v => monoTraceF s note v) ∧
    ∀ v : Nat, v < s.mUnisonVoices →
      (s.TriggerMonoNote note).1.GetVoice v = monoVoiceF s note v := by
  obtain ⟨ht, hl, hv⟩ := triggerMonoLoop_spec note (List.range s.mUnisonVoices)
    (List.nodup_range _) s []
  constructor
  · show (triggerMonoLoop note (List.range s.mUnisonVoices) s []).2 = _
    simpa using ht
  · intro v hvu
    have hproj : (s.TriggerMonoNote note).1.GetVoice v =
        (triggerMonoLoop note (List.range s.mUnisonVoices) s []).1.GetVoice v := rfl
    rw [hproj, hv v (lt_of_lt_of_le hvu hlen), if_pos (List.mem_range.mpr hvu)]

/-- C7 witness state: two unison voices in Legato mode — slot 0 busy and
not released (no Trigger), slot 1 free (fresh Trigger). -/
def c7State : MidiSynth :=
  { mUnisonVoices := 2, mPolyMode := .kPolyModeLegato, voices := [{ busy := true }, {}] }

/-- C7 witness: the per-voice rule applied to `c7State` and key 60. -/
theorem triggerMonoNote_per_voice_witness :
    (c7State.TriggerMonoNote ⟨60, 1⟩).2 =
      (List.range c7State.mUnisonVoices).filterMap (fun v => monoTraceF c7State ⟨60, 1⟩ v) ∧
    (c7State.TriggerMonoNote ⟨60, 1⟩).1.GetVoice 0 = monoVoiceF c7State ⟨60, 1⟩ 0 :=
  ⟨(triggerMonoNote_per_voice c7State ⟨60, 1⟩ (by decide)).1,
   (triggerMonoNote_per_voice c7State ⟨60, 1⟩ (by decide)).2 0 (by decide)⟩

/-! ### C8: mono note-off glide back to the most recent held key -/

/-- C8: a mono/legato note-off whose erase leaves Held Keys non-empty
takes the most recently held remaining key; if it differs from the key
bound to unison slot 0, Sustained Notes is replaced by that single key and
a mono note is triggered for it (the glide back); if it equals slot 0's
key nothing further happens. -/
theorem noteOnOffMono_glide (s : MidiSynth) (msg : IMidiMsg)
    (hoff : ¬ (msg.status = .kNoteOn ∧ msg.velocity ≠ 0))
    (hne : eraseFirstKey s.mHeldKeys msg.noteNumber ≠ []) :
    (((eraseFirstKey s.mHeldKeys msg.noteNumber).getLastD default).mKey ≠
        (s.GetVoice 0).mKey →
      s.NoteOnOffMono msg =
        MidiSynth.TriggerMonoNote
          { s with
            mHeldKeys := eraseFirstKey s.mHeldKeys msg.noteNumber
            mSustainedNotes := [(eraseFirstKey s.mHeldKeys msg.noteNumber).getLastD default] }
          ((eraseFirstKey s.mHeldKeys msg.noteNumber).getLastD default)) ∧
    (((eraseFirstKey s.mHeldKeys msg.noteNumber).getLastD default).mKey =
        (s.GetVoice 0).mKey →
      s.NoteOnOffMono msg =
        ({ s with mHeldKeys := eraseFirstKey s.mHeldKeys msg.noteNumber }, [])) := by
  constructor
  · intro hq
    simp only [MidiSynth.NoteOnOffMono]
    rw [if_neg hoff]
    split
    · split
      · rfl
      · rename_i h2
        exact absurd hq h2
    · rename_i h1
      exact absurd hne h1
  · intro hq
    simp only [MidiSynth.NoteOnOffMono]
    rw [if_neg hoff]
    split
    · split
      · rename_i h2
        exact absurd hq h2
      · rfl
    · rename_i h1
      exact absurd hne h1

/-- C8 witness state: mono synth holding keys 60 then 64, with voice 0
bound to key 64. -/
def c8State : MidiSynth :=
  { mNVoices := 1, mPolyMode := .kPolyModeMono,
    mHeldKeys := [⟨60, 1⟩, ⟨64, 1⟩], mSustainedNotes := [⟨64, 1⟩],
    voices := [{ busy := true, mKey := 64 }] }

/-- C8 witness: releasing key 64 in `c8State` glides back to key 60 — the
note-off equals a mono trigger of the remaining key 60 with Sustained
Notes replaced by it. -/
theorem noteOnOffMono_glide_witness :
    c8State.NoteOnOffMono { status := .kNoteOff, noteNumber := 64 } =
      MidiSynth.TriggerMonoNote
        { c8State with
          mHeldKeys := eraseFirstKey c8State.mHeldKeys 64
          mSustainedNotes := [(eraseFirstKey c8State.mHeldKeys 64).getLastD default] }
        ((eraseFirstKey c8State.mHeldKeys 64).getLastD default) :=
  (noteOnOffMono_glide c8State { status := .kNoteOff, noteNumber := 64 }
      (by decide) (by decide)).1 (by decide)

/-! ### C6: sustain-pedal semantics -/

lemma stopVoicesLoop_getVoice (note : Int) :
    ∀ (l : List Nat), l.Nodup → ∀ (s : MidiSynth) (acts : List VAction) (u : Nat),
      u < s.voices.length →
      (stopVoicesLoop note l s acts).1.GetVoice u =
        if u ∈ l ∧ (s.GetVoice u).mKey = note ∧ (s.GetVoice u).GetBusy = true
        then (s.GetVoice u).Release.RemovedFromKey else s.GetVoice u := by
  intro l
  induction l with
  | nil => intro _ s acts u _; simp [stopVoicesLoop]
  | cons v rest ih =>
    intro hnd s acts u hu
    have hnd' : rest.Nodup := (List.nodup_cons.mp hnd).2
    have hvnot : v ∉ rest := (List.nodup_cons.mp hnd).1
    simp only [stopVoicesLoop]
    by_cases h1 : (s.GetVoice v).mKey = note
    · rw [if_pos h1]
      by_cases h2 : (s.GetVoice v).GetBusy = true
      · rw [if_pos h2,
          ih hnd' (s.setVoice v ((s.GetVoice v).Release.RemovedFromKey)) _ u
            (by rw [setVoice_voices_length]; exact hu)]
        by_cases huv : u = v
        · subst huv
          rw [GetVoice_setVoice_self s u _ hu,
            if_neg (fun hcc => hvnot hcc.1),
            if_pos ⟨List.mem_cons_self u rest, h1, h2⟩]
        · rw [GetVoice_setVoice_ne s u v _ huv]
          by_cases hc : (s.GetVoice u).mKey = note ∧ (s.GetVoice u).GetBusy = true
          · by_cases hur : u ∈ rest
            · rw [if_pos ⟨hur, hc⟩, if_pos ⟨List.mem_cons_of_mem v hur, hc⟩]
            · rw [if_neg (fun hcc => hur hcc.1),
                if_neg (fun hcc => hur (by
                  rcases List.mem_cons.mp hcc.1 with h | h
                  · exact absurd h huv
                  · exact h))]
          · rw [if_neg (fun hcc => hc hcc.2), if_neg (fun hcc => hc hcc.2)]
      · rw [if_neg h2, ih hnd' s acts u hu]
        by_cases hc : (s.GetVoice u).mKey = note ∧ (s.GetVoice u).GetBusy = true
        · have huv : u ≠ v := by rintro rfl; exact h2 hc.2
          by_cases hur : u ∈ rest
          · rw [if_pos ⟨hur, hc⟩, if_pos ⟨List.mem_cons_of_mem v hur, hc⟩]
          · rw [if_neg (fun hcc => hur hcc.1),
              if_neg (fun hcc => hur (by
                rcases List.mem_cons.mp hcc.1 with h | h
                · exact absurd h huv
                · exact h))]
        · rw [if_neg (fun hcc => hc hcc.2), if_neg (fun hcc => hc hcc.2)]
    · rw [if_neg h1, ih hnd' s acts u hu]
      by_cases hc : (s.GetVoice u).mKey = note ∧ (s.GetVoice u).GetBusy = true
      · have huv : u ≠ v := by rintro rfl; exact h1 hc.1
        by_cases hur : u ∈ rest
        · rw [if_pos ⟨hur, hc⟩, if_pos ⟨List.mem_cons_of_mem v hur, hc⟩]
        · rw [if_neg (fun hcc => hur hcc.1),
            if_neg (fun hcc => hur (by
              rcases List.mem_cons.mp hcc.1 with h | h
              · exact absurd h huv
              · exact h))]
      · rw [if_neg (fun hcc => hc hcc.2), if_neg (fun hcc => hc hcc.2)]

lemma StopVoicesForKey_getVoice (s : MidiSynth) (note : Int) (u : Nat)
    (hu : u < s.voices.length) :
    (s.StopVoicesForKey note).1.GetVoice u =
      if u < s.mNVoices ∧ (s.GetVoice u).mKey = note ∧ (s.GetVoice u).GetBusy = true
      then (s.GetVoice u).Release.RemovedFromKey else s.GetVoice u := by
  show (stopVoicesLoop note (List.range s.NVoices) s []).1.GetVoice u = _
  rw [stopVoicesLoop_getVoice note (List.range s.NVoices) (List.nodup_range _) s [] u hu]
  by_cases hun : u < s.mNVoices
  · by_cases hc : (s.GetVoice u).mKey = note ∧ (s.GetVoice u).GetBusy = true
    · rw [if_pos ⟨List.mem_range.mpr hun, hc⟩, if_pos ⟨hun, hc⟩]
    · rw [if_neg (fun hcc => hc hcc.2), if_neg (fun hcc => hc hcc.2)]
  · rw [if_neg (fun hcc => hun (List.mem_range.mp hcc.1)), if_neg (fun hcc => hun hcc.1)]

lemma StopVoicesForKey_mNVoices (s : MidiSynth) (note : Int) :
    (s.StopVoicesForKey note).1.mNVoices = s.mNVoices := by
  show (stopVoicesLoop note (List.range s.NVoices) s []).1.mNVoices = s.mNVoices
  rw [stopVoicesLoop_state]

lemma StopVoicesForKey_mSustainPedalDown (s : MidiSynth) (note : Int) :
    (s.StopVoicesForKey note).1.mSustainPedalDown = s.mSustainPedalDown := by
  show (stopVoicesLoop note (List.range s.NVoices) s []).1.mSustainPedalDown = _
  rw [stopVoicesLoop_state]

lemma StopVoicesForKey_length (s : MidiSynth) (note : Int) :
    (s.StopVoicesForKey note).1.voices.length = s.voices.length :=
  stopVoicesLoop_length note (List.range s.NVoices) s []

lemma sustainReleaseLoop_spec :
    ∀ (rem : List KeyPressInfo) (s : MidiSynth) (kept : List KeyPressInfo) (acts : List VAction),
      (∀ kp ∈ rem, 0 ≤ kp.mKey) → s.mNVoices ≤ s.voices.length →
      (sustainReleaseLoop rem s kept acts).2.1 =
        kept ++ rem.filter (fun kp => containsKey s.mHeldKeys kp.mKey) ∧
      (sustainReleaseLoop rem s kept acts).1.mHeldKeys = s.mHeldKeys ∧
      (sustainReleaseLoop rem s kept acts).1.mNVoices = s.mNVoices ∧
      (sustainReleaseLoop rem s kept acts).1.mSustainPedalDown = s.mSustainPedalDown ∧
      (sustainReleaseLoop rem s kept acts).1.voices.length = s.voices.length ∧
      ∀ u : Nat, u < s.mNVoices →
        (sustainReleaseLoop rem s kept acts).1.GetVoice u =
          if (s.GetVoice u).GetBusy = true ∧ (s.GetVoice u).mKey ∈
              (rem.filter (fun kp => !containsKey s.mHeldKeys kp.mKey)).map KeyPressInfo.mKey
          then (s.GetVoice u).Release.RemovedFromKey else s.GetVoice u := by
  intro rem
  induction rem with
  | nil =>
    intro s kept acts _ _
    refine ⟨by simp [sustainReleaseLoop], rfl, rfl, rfl, rfl, fun u _ => by
      simp [sustainReleaseLoop]⟩
  | cons kp rest ih =>
    intro s kept acts hkeys hlen
    have hkeys' : ∀ q ∈ rest, 0 ≤ q.mKey := fun q hq => hkeys q (by simp [hq])
    by_cases hheld : containsKey s.mHeldKeys kp.mKey = true
    · have hstep : sustainReleaseLoop (kp :: rest) s kept acts =
          sustainReleaseLoop rest s (kept ++ [kp]) acts := by
        simp only [sustainReleaseLoop]
        rw [if_neg (by simp [hheld])]
      obtain ⟨h1, h2, h3, h4, h5, h6⟩ := ih s (kept ++ [kp]) acts hkeys' hlen
      rw [hstep]
      refine ⟨?_, h2, h3, h4, h5, ?_⟩
      · rw [h1, List.filter_cons, if_pos (by simp [hheld])]
        simp
      · intro u hu
        have hfc : (kp :: rest).filter (fun q => !containsKey s.mHeldKeys q.mKey) =
            rest.filter (fun q => !containsKey s.mHeldKeys q.mKey) := by
          rw [List.filter_cons]
          exact if_neg (by simp [hheld])
        rw [hfc]
        exact h6 u hu
    · have hheld' : containsKey s.mHeldKeys kp.mKey = false := by simpa using hheld
      have hstep : sustainReleaseLoop (kp :: rest) s kept acts =
          sustainReleaseLoop rest (s.StopVoicesForKey kp.mKey).1 kept
            (acts ++ (s.StopVoicesForKey kp.mKey).2) := by
        simp only [sustainReleaseLoop]
        rw [if_pos (by simp [hheld'])]
      set s2 := (s.StopVoicesForKey kp.mKey).1 with hs2
      have hsH : s2.mHeldKeys = s.mHeldKeys := StopVoicesForKey_mHeldKeys s kp.mKey
      have hsN : s2.mNVoices = s.mNVoices := StopVoicesForKey_mNVoices s kp.mKey
      have hsP : s2.mSustainPedalDown = s.mSustainPedalDown :=
        StopVoicesForKey_mSustainPedalDown s kp.mKey
      have hsL : s2.voices.length = s.voices.length := StopVoicesForKey_length s kp.mKey
      obtain ⟨h1, h2, h3, h4, h5, h6⟩ := ih s2 kept (acts ++ (s.StopVoicesForKey kp.mKey).2)
        hkeys' (by rw [hsN, hsL]; exact hlen)
      rw [hstep]
      refine ⟨?_, by rw [h2, hsH], by rw [h3, hsN], by rw [h4, hsP], by rw [h5, hsL], ?_⟩
      · rw [h1, List.filter_cons, if_neg (by simp [hheld']),
          List.filter_congr fun q _ => by rw [hsH]]
      · intro u hu
        have hu2 : u < s2.mNVoices := by rw [hsN]; exact hu
        have huL : u < s.voices.length := lt_of_lt_of_le hu hlen
        rw [h6 u hu2, StopVoicesForKey_getVoice s kp.mKey u huL]
        have hdropped : (rest.filter (fun q => !containsKey s2.mHeldKeys q.mKey)).map
            KeyPressInfo.mKey =
            (rest.filter (fun q => !containsKey s.mHeldKeys q.mKey)).map KeyPressInfo.mKey := by
          rw [List.filter_congr fun q _ => by rw [hsH]]
        have hconsDropped : ((kp :: rest).filter
            (fun q => !containsKey s.mHeldKeys q.mKey)).map KeyPressInfo.mKey =
            kp.mKey :: (rest.filter (fun q => !containsKey s.mHeldKeys q.mKey)).map
              KeyPressInfo.mKey := by
          rw [List.filter_cons, if_pos (by simp [hheld'])]
          simp
        rw [hdropped, hconsDropped]
        have hrestKeys : ∀ x ∈ (rest.filter
            (fun q => !containsKey s.mHeldKeys q.mKey)).map KeyPressInfo.mKey, 0 ≤ x := by
          intro x hx
          obtain ⟨q, hq, hqx⟩ := List.mem_map.mp hx
          exact hqx ▸ hkeys' q (List.mem_filter.mp hq).1
        by_cases hA : (s.GetVoice u).GetBusy = true ∧ (s.GetVoice u).mKey = kp.mKey
        · -- this voice is stopped by the head entry
          have hinner : u < s.mNVoices ∧ (s.GetVoice u).mKey = kp.mKey ∧
              (s.GetVoice u).GetBusy = true := ⟨hu, hA.2, hA.1⟩
          rw [if_pos hinner]
          have houter : ¬ (((s.GetVoice u).Release.RemovedFromKey).GetBusy = true ∧
              ((s.GetVoice u).Release.RemovedFromKey).mKey ∈
                (rest.filter (fun q => !containsKey s.mHeldKeys q.mKey)).map
                  KeyPressInfo.mKey) := by
            intro hcc
            have h0 := hrestKeys _ hcc.2
            have hkeyneg : ((s.GetVoice u).Release.RemovedFromKey).mKey = -1 := rfl
            rw [hkeyneg] at h0
            omega
          rw [if_neg houter]
          have htarget : (s.GetVoice u).GetBusy = true ∧ (s.GetVoice u).mKey ∈
              kp.mKey :: (rest.filter (fun q => !containsKey s.mHeldKeys q.mKey)).map
                KeyPressInfo.mKey := ⟨hA.1, by rw [hA.2]; exact List.mem_cons_self _ _⟩
          rw [if_pos htarget]
        · -- untouched by the head entry
          have hinnerneg : ¬ (u < s.mNVoices ∧ (s.GetVoice u).mKey = kp.mKey ∧
              (s.GetVoice u).GetBusy = true) := fun hcc => hA ⟨hcc.2.2, hcc.2.1⟩
          rw [if_neg hinnerneg]
          by_cases hB : (s.GetVoice u).GetBusy = true ∧ (s.GetVoice u).mKey ∈
              (rest.filter (fun q => !containsKey s.mHeldKeys q.mKey)).map KeyPressInfo.mKey
          · have htarget : (s.GetVoice u).GetBusy = true ∧ (s.GetVoice u).mKey ∈
                kp.mKey :: (rest.filter (fun q => !containsKey s.mHeldKeys q.mKey)).map
                  KeyPressInfo.mKey := ⟨hB.1, List.mem_cons_of_mem _ hB.2⟩
            rw [if_pos hB, if_pos htarget]
          · have htargetneg : ¬ ((s.GetVoice u).GetBusy = true ∧ (s.GetVoice u).mKey ∈
                kp.mKey :: (rest.filter (fun q => !containsKey s.mHeldKeys q.mKey)).map
                  KeyPressInfo.mKey) := fun hcc => hB ⟨hcc.1, by
              rcases List.mem_cons.mp hcc.2 with h | h
              · exact absurd ⟨hcc.1, h⟩ hA
              · exact h⟩
            rw [if_neg hB, if_neg htargetneg]

/-- C6: while the sustain pedal is down, a Poly note-off only removes the
key from Held Keys — no voice is released, no Trigger/Release call is
made, and Sustained Notes is untouched.  When the pedal is then released
(control value < 0.5), the pedal flag drops, Sustained Notes keeps
exactly the entries whose key is still physically held, and every busy
voice bound to a no-longer-held sustained key is released and detached
from its key (other voices are untouched). -/
theorem sustainPedal_semantics (s : MidiSynth)
    (hlen : s.mNVoices ≤ s.voices.length)
    (hkeys : ∀ kp ∈ s.mSustainedNotes, 0 ≤ kp.mKey)
    (val : ℚ) (hval : val < 1 / 2) :
    (∀ msg : IMidiMsg, s.mSustainPedalDown = true →
      ¬ (msg.status = .kNoteOn ∧ msg.velocity ≠ 0) →
      s.NoteOnOffPoly msg =
        ({ s with mHeldKeys := eraseFirstKey s.mHeldKeys msg.noteNumber }, [])) ∧
    ((s.handleSustainCC val).1.mSustainPedalDown = false ∧
     (s.handleSustainCC val).1.mSustainedNotes =
       s.mSustainedNotes.filter (fun kp => containsKey s.mHeldKeys kp.mKey) ∧
     ∀ u : Nat, u < s.mNVoices →
       (s.handleSustainCC val).1.GetVoice u =
         if (s.GetVoice u).GetBusy = true ∧ (s.GetVoice u).mKey ∈
             (s.mSustainedNotes.filter (fun kp => !containsKey s.mHeldKeys kp.mKey)).map
               KeyPressInfo.mKey
         then (s.GetVoice u).Release.RemovedFromKey else s.GetVoice u) := by
  constructor
  · intro msg hped hoff
    simp only [MidiSynth.NoteOnOffPoly]
    rw [if_neg hoff]
    have hcnd : (!({ s with mHeldKeys := eraseFirstKey s.mHeldKeys msg.noteNumber } :
        MidiSynth).mSustainPedalDown) = false := by
      show (!s.mSustainPedalDown) = false
      rw [hped]
      rfl
    rw [if_neg (by simp [hcnd])]
  · have hdec : decide (ratHalf ≤ val) = false := by
      rw [ratHalf_eq]
      exact decide_eq_false (not_le.mpr hval)
    simp only [MidiSynth.handleSustainCC, hdec]
    rw [if_pos (show (!({ s with mSustainPedalDown := false } :
      MidiSynth).mSustainPedalDown) = true from rfl)]
    by_cases hemp : s.mSustainedNotes = []
    · rw [if_neg (show ¬ (({ s with mSustainPedalDown := false } :
        MidiSynth).mSustainedNotes ≠ []) from by
          show ¬ (s.mSustainedNotes ≠ [])
          simp [hemp])]
      refine ⟨rfl, ?_, ?_⟩
      · show s.mSustainedNotes = s.mSustainedNotes.filter _
        rw [hemp]
        rfl
      · intro u hu
        show s.GetVoice u = _
        rw [if_neg (by
          rw [hemp]
          rintro ⟨-, hmem⟩
          simp at hmem)]
    · rw [if_pos (show (({ s with mSustainPedalDown := false } :
        MidiSynth).mSustainedNotes ≠ []) from by
          show s.mSustainedNotes ≠ []
          exact hemp)]
      obtain ⟨h1, h2, h3, h4, h5, h6⟩ := sustainReleaseLoop_spec
        (({ s with mSustainPedalDown := false } : MidiSynth).mSustainedNotes)
        ({ s with mSustainPedalDown := false } : MidiSynth) [] [] hkeys hlen
      refine ⟨?_, ?_, ?_⟩
      · show (sustainReleaseLoop _ _ [] []).1.mSustainPedalDown = false
        rw [h4]
      · show (sustainReleaseLoop _ _ [] []).2.1 = _
        rw [h1]
        rfl
      · intro u hu
        show (sustainReleaseLoop _ _ [] []).1.GetVoice u = _
        rw [h6 u hu]
        rfl

/-- C6 witness state: the pedal is down, key 60 was physically released
(Held Keys empty) while its sustained entry and the busy voice bound to
key 60 remain. -/
def c6State : MidiSynth :=
  { mNVoices := 1, voices := [{ busy := true, mKey := 60 }],
    mSustainPedalDown := true, mSustainedNotes := [⟨60, 1⟩], mHeldKeys := [] }

/-- C6 witness: in `c6State`, a pedal-down Poly note-off for key 72 only
erases Held Keys (no voice action), and the pedal release (value 0) drops
the pedal, empties Sustained Notes (its key 60 is no longer held) and
releases the voice bound to key 60. -/
theorem sustainPedal_semantics_witness :
    (c6State.NoteOnOffPoly { status := .kNoteOff, noteNumber := 72 } =
      ({ c6State with mHeldKeys := eraseFirstKey c6State.mHeldKeys 72 }, [])) ∧
    (c6State.handleSustainCC 0).1.mSustainPedalDown = false ∧
    (c6State.handleSustainCC 0).1.mSustainedNotes =
      c6State.mSustainedNotes.filter (fun kp => containsKey c6State.mHeldKeys kp.mKey) ∧
    (c6State.handleSustainCC 0).1.GetVoice 0 =
      (if (c6State.GetVoice 0).GetBusy = true ∧ (c6State.GetVoice 0).mKey ∈
          (c6State.mSustainedNotes.filter
            (fun kp => !containsKey c6State.mHeldKeys kp.mKey)).map KeyPressInfo.mKey
       then (c6State.GetVoice 0).Release.RemovedFromKey else c6State.GetVoice 0) :=
  ⟨(sustainPedal_semantics c6State (by decide) (by decide) 0 (by norm_num)).1
      { status := .kNoteOff, noteNumber := 72 } (by decide) (by decide),
   (sustainPedal_semantics c6State (by decide) (by decide) 0 (by norm_num)).2.1,
   (sustainPedal_semantics c6State (by decide) (by decide) 0 (by norm_num)).2.2.1,
   (sustainPedal_semantics c6State (by decide) (by decide) 0 (by norm_num)).2.2.2 0 (by decide)⟩
